import Mathlib

/-!
Verification of the ebml-iterable EBML codec.

Shallow embedding of the library's core: the variable-integer codec and
byte-array readers (`src/tools.rs`), the schema dispatch tables and path
validator (`src/spec_util.rs`, the derive output of
`specification-derive/src/attr.rs`), the tag writer (`src/tag_writer.rs`)
and the reader state machine (`src/tag_iterator.rs`).

Bytes are modelled as `Nat` (each in `[0, 256)` wherever produced by the
code), `u64` as `Nat`, `i64` as `Int`; machine arithmetic that cannot
overflow in the modelled code paths is carried out exactly.
-/

namespace Ebml

/-- `errors.rs` `ToolError` (byte payloads carried as `List Nat`). -/
inductive ToolError where
  | readVintOverflow
  | writeVintOverflow (val : Nat)
  | writeSignedVintOverflow (val : Int)
  | readU64Overflow (arr : List Nat)
  | readI64Overflow (arr : List Nat)
  | readF64Mismatch (arr : List Nat)
  | fromUtf8Error (arr : List Nat)
deriving Repr, DecidableEq

/-- Big-endian base-256 bytes of `v`, exactly `n` of them (the view
`val.to_be_bytes()` gives of the low `8*n` bits of `val`). -/
def beBytes : Nat → Nat → List Nat
  | 0, _ => []
  | n + 1, v => beBytes n (v / 256) ++ [v % 256]

/-- `tools.rs` `check_size_u64`: error iff `val >= 1 << (max_length * 7)`. -/
def check_size_u64 (val : Nat) (maxLength : Nat) : Except ToolError Unit :=
  if val ≥ 1 <<< (maxLength * 7) then
    .error (.writeVintOverflow val)
  else
    .ok ()

/-- The width-search loop in `Vint::as_vint`: starting from `l`, the first
`length <= 8` with `val < (1 << (7 * length))`; the loop leaves `length = 9`
when no width fits. -/
def vint_length_from (val : Nat) (l : Nat) : Nat :=
  if l ≤ 8 then
    if val < 1 <<< (7 * l) then l else vint_length_from val (l + 1)
  else l
termination_by 9 - l
decreasing_by omega

/-- `tools.rs` `as_vint_no_check_u64`: the last `length` big-endian bytes of
`val`, with `result[0] |= 1 << (8 - length)`. -/
def as_vint_no_check_u64 (val : Nat) (length : Nat) : List Nat :=
  match beBytes 8 val |>.drop (8 - length) with
  | [] => []
  | r0 :: rest => (r0 ||| 1 <<< (8 - length)) :: rest

/-- `tools.rs` `Vint::as_vint` (for a `u64` value). -/
def as_vint (val : Nat) : Except ToolError (List Nat) := do
  check_size_u64 val 8
  let length := vint_length_from val 1
  return as_vint_no_check_u64 val length

/-- `tools.rs` `read_vint`. `u8::ilog2` is `Nat.log2` (first byte nonzero). -/
def read_vint (buffer : List Nat) : Except ToolError (Option (Nat × Nat)) :=
  match buffer with
  | [] => .ok none
  | b0 :: _ =>
    if b0 = 0 then .error .readVintOverflow
    else
      let length := 8 - Nat.log2 b0
      if length > buffer.length then .ok none
      else
        let value := b0 - 1 <<< (8 - length)
        let value := ((buffer.take length).drop 1).foldl (fun v item => v * 256 + item) value
        .ok (some (value, length))

/-! Basic facts about `beBytes` and the decode fold. -/

theorem beBytes_length (n v : Nat) : (beBytes n v).length = n := by
  induction n generalizing v with
  | zero => rfl
  | succ n ih => simp [beBytes, ih]

theorem beBytes_lt (n v : Nat) : ∀ b ∈ beBytes n v, b < 256 := by
  induction n generalizing v with
  | zero => simp [beBytes]
  | succ n ih =>
    intro b hb
    rcases List.mem_append.1 hb with h | h
    · exact ih _ _ h
    · simp only [List.mem_singleton] at h
      omega

/-- Splitting big-endian bytes: the first `m` bytes describe `v / 256^n`,
the last `n` bytes describe `v` (truncated to its low `n` bytes). -/
theorem beBytes_add (m n v : Nat) :
    beBytes (m + n) v = beBytes m (v / 256 ^ n) ++ beBytes n v := by
  induction n generalizing v with
  | zero => simp [beBytes]
  | succ n ih =>
    have : m + (n + 1) = (m + n) + 1 := by omega
    rw [this]
    show beBytes (m + n) (v / 256) ++ [v % 256] = _
    rw [ih (v / 256)]
    simp [beBytes, Nat.div_div_eq_div_mul, pow_succ, Nat.mul_comm]

/-- Head view of big-endian bytes: the leading byte is the top digit. -/
theorem beBytes_cons (n v : Nat) :
    beBytes (n + 1) v = (v / 256 ^ n % 256) :: beBytes n v := by
  have h := beBytes_add 1 n v
  have : (1 : Nat) + n = n + 1 := by omega
  rw [this] at h
  simpa [beBytes] using h

/-- Decoding fold: accumulating the big-endian bytes of `v` recovers
`v`'s low `n` bytes on top of the shifted accumulator. -/
theorem foldl_beBytes (n : Nat) : ∀ (v acc : Nat),
    (beBytes n v).foldl (fun a b => a * 256 + b) acc = acc * 256 ^ n + v % 256 ^ n := by
  induction n with
  | zero => intro v acc; simp [beBytes, Nat.mod_one]
  | succ n ih =>
    intro v acc
    rw [beBytes_cons, List.foldl_cons, ih]
    have h := Nat.mod_pow_succ (x := v) (b := 256) (k := n)
    rw [h]; ring

/-! Bit-level helpers for the vint marker bit. -/

theorem lor_two_pow_of_lt {a k : Nat} (h : a < 2 ^ k) : a ||| 2 ^ k = a + 2 ^ k := by
  apply Nat.eq_of_testBit_eq
  intro i
  rcases Nat.lt_trichotomy i k with hik | rfl | hik
  · rw [Nat.testBit_or, Nat.add_comm, Nat.testBit_two_pow_add_gt hik,
      Nat.testBit_two_pow_of_ne (by omega : k ≠ i), Bool.or_false]
  · rw [Nat.testBit_or, Nat.add_comm, Nat.testBit_two_pow_add_eq,
      Nat.testBit_lt_two_pow h, Nat.testBit_two_pow_self]
    rfl
  · have h1 : a.testBit i = false :=
      Nat.testBit_lt_two_pow (lt_of_lt_of_le h (Nat.pow_le_pow_right (by norm_num) (le_of_lt hik)))
    have h2 : (a + 2 ^ k).testBit i = false := by
      apply Nat.testBit_lt_two_pow
      have h3 : 2 ^ (k + 1) ≤ 2 ^ i := Nat.pow_le_pow_right (by norm_num) hik
      have h4 : 2 ^ k + 2 ^ k ≤ 2 ^ i := by
        calc 2 ^ k + 2 ^ k = 2 ^ (k + 1) := by ring
        _ ≤ 2 ^ i := h3
      omega
    rw [Nat.testBit_or, h1, h2, Nat.testBit_two_pow_of_ne (by omega : k ≠ i)]
    rfl

theorem log2_eq_of {b k : Nat} (h1 : 2 ^ k ≤ b) (h2 : b < 2 ^ (k + 1)) :
    Nat.log2 b = k := by
  have hb : b ≠ 0 := by
    have hpos : 0 < 2 ^ k := pow_pos (by norm_num) k
    omega
  have hle : k ≤ Nat.log2 b := (Nat.le_log2 hb).2 h1
  have hlt : Nat.log2 b < k + 1 := (Nat.log2_lt hb).2 h2
  omega

/-- Behaviour of the `as_vint` width-search loop: starting at any `l ∈ [1,8]`
it lands on the first fitting width at or after `l` (all widths fit at 8 when
`val < 2^56`). -/
theorem vint_length_from_spec (val : Nat) (h56 : val < 2 ^ 56) :
    ∀ n l, 8 - l = n → 1 ≤ l → l ≤ 8 →
      1 ≤ vint_length_from val l ∧ vint_length_from val l ≤ 8 ∧
      val < 2 ^ (7 * vint_length_from val l) ∧
      (∀ m, l ≤ m → val < 2 ^ (7 * m) → vint_length_from val l ≤ m) := by
  intro n
  induction n with
  | zero =>
    intro l hn h1 h8
    have hl : l = 8 := by omega
    subst hl
    have hfit : val < 1 <<< (7 * 8) := by
      rw [Nat.shiftLeft_eq, one_mul]; exact h56
    rw [vint_length_from]
    simp only [hfit, if_pos (by omega : (8 : Nat) ≤ 8), if_pos]
    refine ⟨by omega, by omega, ?_, fun m hm _ => hm⟩
    simpa [Nat.shiftLeft_eq] using hfit
  | succ n ih =>
    intro l hn h1 h8
    rw [vint_length_from]
    simp only [if_pos h8]
    by_cases hfit : val < 1 <<< (7 * l)
    · simp only [hfit, if_pos]
      exact ⟨h1, h8, by simpa [Nat.shiftLeft_eq] using hfit, fun m hm _ => hm⟩
    · simp only [hfit, if_neg, if_false]
      have hrec := ih (l + 1) (by omega) (by omega) (by omega)
      refine ⟨by omega, hrec.2.1, hrec.2.2.1, ?_⟩
      intro m hm hfitm
      have hml : m ≠ l := by
        rintro rfl
        exact hfit (by simpa [Nat.shiftLeft_eq] using hfitm)
      exact hrec.2.2.2 m (by omega) hfitm

/-- Core of the unsigned round-trip: reading back `as_vint_no_check_u64`
recovers the value and the width, for any fitting width. -/
theorem read_as_vint_no_check (val L : Nat) (hL1 : 1 ≤ L) (hL8 : L ≤ 8)
    (hfit : val < 2 ^ (7 * L)) :
    (as_vint_no_check_u64 val L).length = L ∧
    read_vint (as_vint_no_check_u64 val L) = .ok (some (val, L)) := by
  have hpow : (256 : Nat) ^ (L - 1) = 2 ^ (8 * (L - 1)) := by
    rw [show (256 : Nat) = 2 ^ 8 from by norm_num, ← pow_mul]
  have hsplit : beBytes 8 val = beBytes (8 - L) (val / 256 ^ L) ++ beBytes L val := by
    have h := beBytes_add (8 - L) L val
    rw [show (8 : Nat) - L + L = 8 from by omega] at h
    exact h
  have hdrop : (beBytes 8 val).drop (8 - L) = beBytes L val := by
    rw [hsplit]
    have hlen : (beBytes (8 - L) (val / 256 ^ L)).length = 8 - L := beBytes_length _ _
    have h := List.drop_left (beBytes (8 - L) (val / 256 ^ L)) (beBytes L val)
    rw [hlen] at h
    exact h
  have hLsucc : L = (L - 1) + 1 := by omega
  have hcons : beBytes L val = (val / 256 ^ (L - 1) % 256) :: beBytes (L - 1) val := by
    conv_lhs => rw [hLsucc]
    exact beBytes_cons (L - 1) val
  -- the top digit is below the marker bit
  have hd : val / 256 ^ (L - 1) < 2 ^ (8 - L) := by
    rw [hpow]
    rw [Nat.div_lt_iff_lt_mul (by positivity)]
    calc val < 2 ^ (7 * L) := hfit
    _ ≤ 2 ^ (8 - L) * 2 ^ (8 * (L - 1)) := by
        rw [← pow_add]
        exact Nat.pow_le_pow_right (by norm_num) (by omega)
  have hdmod : val / 256 ^ (L - 1) % 256 = val / 256 ^ (L - 1) := by
    apply Nat.mod_eq_of_lt
    calc val / 256 ^ (L - 1) < 2 ^ (8 - L) := hd
    _ ≤ 256 := by
        calc (2 : Nat) ^ (8 - L) ≤ 2 ^ 8 := Nat.pow_le_pow_right (by norm_num) (by omega)
        _ = 256 := by norm_num
  set d := val / 256 ^ (L - 1) with hd_def
  have hshift : (1 : Nat) <<< (8 - L) = 2 ^ (8 - L) := by
    rw [Nat.shiftLeft_eq, one_mul]
  have henc : as_vint_no_check_u64 val L = (d + 2 ^ (8 - L)) :: beBytes (L - 1) val := by
    unfold as_vint_no_check_u64
    rw [hdrop, hcons, hdmod]
    show (d ||| 1 <<< (8 - L)) :: beBytes (L - 1) val = _
    rw [hshift, lor_two_pow_of_lt hd]
  have hlen : (as_vint_no_check_u64 val L).length = L := by
    rw [henc]
    simp [beBytes_length]
    omega
  refine ⟨hlen, ?_⟩
  rw [henc]
  unfold read_vint
  have hb0ne : ¬ d + 2 ^ (8 - L) = 0 := by positivity
  have hlog : Nat.log2 (d + 2 ^ (8 - L)) = 8 - L := by
    apply log2_eq_of (by omega)
    have : d + 2 ^ (8 - L) < 2 ^ (8 - L) + 2 ^ (8 - L) := by omega
    calc d + 2 ^ (8 - L) < 2 ^ (8 - L) + 2 ^ (8 - L) := this
    _ = 2 ^ (8 - L + 1) := by ring
  simp only [if_neg hb0ne, hlog]
  have hlen8 : 8 - (8 - L) = L := by omega
  rw [hlen8]
  have hlistlen : ((d + 2 ^ (8 - L)) :: beBytes (L - 1) val).length = L := by
    simp [beBytes_length]; omega
  rw [hlistlen]
  simp only [lt_irrefl, if_neg, if_false]
  have htake : ((d + 2 ^ (8 - L)) :: beBytes (L - 1) val).take L
      = (d + 2 ^ (8 - L)) :: beBytes (L - 1) val := by
    apply List.take_of_length_le
    rw [hlistlen]
  rw [htake]
  simp only [List.drop_succ_cons, List.drop_zero]
  rw [hshift]
  have hsub : d + 2 ^ (8 - L) - 2 ^ (8 - L) = d := by omega
  rw [hsub, foldl_beBytes]
  have hfin : val / 256 ^ (L - 1) * 256 ^ (L - 1) + val % 256 ^ (L - 1) = val := by
    rw [Nat.mul_comm, Nat.div_add_mod]
  rw [hd_def, hfin]

/-- C2: for every `v < 2^56`, `Vint::as_vint` succeeds and `read_vint` on the
encoding returns `(v, w)` where `w` is the byte length of the encoding and the
minimal width in `1..=8` with `v < 2^(7*w)`. -/
theorem vint_roundtrip_unsigned (v : Nat) (h : v < 2 ^ 56) :
    ∃ bytes w,
      as_vint v = .ok bytes ∧
      read_vint bytes = .ok (some (v, w)) ∧
      w = bytes.length ∧
      1 ≤ w ∧ w ≤ 8 ∧ v < 2 ^ (7 * w) ∧
      (∀ m, 1 ≤ m → v < 2 ^ (7 * m) → w ≤ m) := by
  have hspec := vint_length_from_spec v h 7 1 (by omega) (by omega) (by omega)
  set w := vint_length_from v 1 with hw_def
  have hcore := read_as_vint_no_check v w hspec.1 hspec.2.1 hspec.2.2.1
  refine ⟨as_vint_no_check_u64 v w, w, ?_, hcore.2, hcore.1.symm,
    hspec.1, hspec.2.1, hspec.2.2.1, hspec.2.2.2⟩
  unfold as_vint check_size_u64
  have hnot : ¬ v ≥ 1 <<< (8 * 7) := by
    rw [Nat.shiftLeft_eq, one_mul]
    omega
  simp only [hnot, if_neg, if_false]
  rfl

/-- Witness for C2 at `v = 300`. -/
theorem vint_roundtrip_unsigned_witness :
    (300 : Nat) < 2 ^ 56 ∧
    (∃ bytes w,
      as_vint 300 = .ok bytes ∧
      read_vint bytes = .ok (some (300, w)) ∧
      w = bytes.length ∧
      1 ≤ w ∧ w ≤ 8 ∧ 300 < 2 ^ (7 * w) ∧
      (∀ m, 1 ≤ m → 300 < 2 ^ (7 * m) → w ≤ m)) :=
  ⟨by norm_num, vint_roundtrip_unsigned 300 (by norm_num)⟩

/-! Signed vint codec (`tools.rs` `SignedVint` / `read_signed_vint`). -/

/-- `tools.rs` `check_size_i64`: error iff
`val <= -(1 << (max_length * 7 - 1)) || val >= (1 << (max_length * 7 - 1))`. -/
def check_size_i64 (val : Int) (maxLength : Nat) : Except ToolError Unit :=
  if val ≤ -((1 <<< (maxLength * 7 - 1) : Nat) : Int) ∨
      val ≥ ((1 <<< (maxLength * 7 - 1) : Nat) : Int) then
    .error (.writeSignedVintOverflow val)
  else
    .ok ()

/-- The width-search loop in `SignedVint::as_signed_vint`: the first
`length <= 8` with `val >= -(1 << (7 * length - 1)) && val < (1 << (7 * length - 1))`. -/
def signed_vint_length_from (val : Int) (l : Nat) : Nat :=
  if l ≤ 8 then
    if -((1 <<< (7 * l - 1) : Nat) : Int) ≤ val ∧ val < ((1 <<< (7 * l - 1) : Nat) : Int)
    then l
    else signed_vint_length_from val (l + 1)
  else l
termination_by 9 - l
decreasing_by omega

/-- `i64::to_be_bytes`: big-endian bytes of the two's-complement bit pattern. -/
def i64ToBeBytes (val : Int) : List Nat :=
  beBytes 8 (val % (2 ^ 64 : Int)).toNat

/-- `tools.rs` `as_vint_no_check_i64`: the last `length` bytes of the
two's-complement pattern; a negative value keeps its sign-extension bits and
is masked with `result[0] &= 0xFF >> (length - 1)`, a non-negative one gets
the marker via `result[0] |= 1 << (8 - length)`. -/
def as_vint_no_check_i64 (val : Int) (length : Nat) : List Nat :=
  match (i64ToBeBytes val).drop (8 - length) with
  | [] => []
  | r0 :: rest =>
    (if val < 0 then r0 &&& (0xFF >>> (length - 1)) else r0 ||| 1 <<< (8 - length)) :: rest

/-- `tools.rs` `SignedVint::as_signed_vint` (for an `i64` value). -/
def as_signed_vint (val : Int) : Except ToolError (List Nat) := do
  check_size_i64 val 8
  let length := signed_vint_length_from val 1
  return as_vint_no_check_i64 val length

/-- `tools.rs` `read_signed_vint`.  The sign-extension
`(buffer[0] as i64) | (!0i64 << (8 - length))` keeps the low `8 - length`
bits of the first byte below all-one high bits, i.e. equals
`b0 % 2^(8-length) - 2^(8-length)`; the accumulation `value <<= 8; value += item`
is an exact multiply-add for the in-range values produced here.
(`buffer[1]` is in bounds whenever `length = 8 <= buffer.len()`.) -/
def read_signed_vint (buffer : List Nat) : Except ToolError (Option (Int × Nat)) :=
  match buffer with
  | [] => .ok none
  | b0 :: _ =>
    if b0 = 0 then .error .readVintOverflow
    else
      let length := 8 - Nat.log2 b0
      if length > buffer.length then .ok none
      else
        let isNegative :=
          (if length = 8 then (buffer.getD 1 0) &&& 0x80 else b0 &&& (0x80 >>> length)) > 0
        let value : Int :=
          if isNegative then ((b0 % 2 ^ (8 - length) : Nat) : Int) - 2 ^ (8 - length)
          else ((b0 &&& (0xFF >>> length) : Nat) : Int)
        let value := ((buffer.take length).drop 1).foldl (fun (v : Int) (item : Nat) => v * 256 + (item : Int)) value
        .ok (some (value, length))

/-! Helpers for masks and sign bits. -/

theorem land_two_pow_eq_zero {x k : Nat} (h : x / 2 ^ k % 2 = 0) : x &&& 2 ^ k = 0 := by
  apply Nat.eq_of_testBit_eq
  intro i
  rw [Nat.testBit_and, Nat.zero_testBit]
  rcases eq_or_ne i k with rfl | hik
  · rw [Nat.testBit_to_div_mod]
    simp [h]
  · rw [Nat.testBit_two_pow_of_ne (Ne.symm hik)]
    simp

theorem land_two_pow_eq_self {x k : Nat} (h : x / 2 ^ k % 2 = 1) : x &&& 2 ^ k = 2 ^ k := by
  apply Nat.eq_of_testBit_eq
  intro i
  rw [Nat.testBit_and]
  rcases eq_or_ne i k with rfl | hik
  · rw [Nat.testBit_to_div_mod (x := x)]
    simp [h, Nat.testBit_two_pow_self]
  · rw [Nat.testBit_two_pow_of_ne (Ne.symm hik)]
    simp

theorem two_pow_sub_one_div {k L : Nat} (h : L ≤ k) :
    (2 ^ k - 1) / 2 ^ L = 2 ^ (k - L) - 1 := by
  have h1 : (2:Nat) ^ k = 2 ^ L * 2 ^ (k - L) := by
    rw [← pow_add]; congr 1; omega
  have h2 : (0:Nat) < 2 ^ L := pow_pos (by norm_num) L
  have h3 : (0:Nat) < 2 ^ (k - L) := pow_pos (by norm_num) (k - L)
  have h4 : 2 ^ L * (2 ^ (k - L) - 1) = 2 ^ k - 2 ^ L := by
    rw [Nat.mul_sub, h1, Nat.mul_one]
  have h5 : 2 ^ k - 1 = 2 ^ L * (2 ^ (k - L) - 1) + (2 ^ L - 1) := by
    rw [h4]
    have : 2 ^ L ≤ 2 ^ k := Nat.pow_le_pow_right (by norm_num) h
    omega
  rw [h5, Nat.mul_add_div h2, Nat.div_eq_of_lt (by omega), Nat.add_zero]

/-- `beBytes` only sees the value modulo `256^n`. -/
theorem beBytes_mod_eq (n : Nat) : ∀ a, beBytes n (a % 256 ^ n) = beBytes n a := by
  induction n with
  | zero => intro a; rfl
  | succ n ih =>
    intro a
    simp only [beBytes]
    have hdvd : (256:Nat) ∣ 256 ^ (n + 1) := dvd_pow_self 256 (by omega)
    have h1 : a % 256 ^ (n + 1) % 256 = a % 256 := Nat.mod_mod_of_dvd a hdvd
    have h2 : a % 256 ^ (n + 1) / 256 = a / 256 % 256 ^ n := by
      rw [pow_succ, Nat.mod_mul_left_div_self]
    rw [h1, h2, ih]

theorem beBytes_congr {n a b : Nat} (h : a % 256 ^ n = b % 256 ^ n) :
    beBytes n a = beBytes n b := by
  rw [← beBytes_mod_eq n a, h, beBytes_mod_eq]

/-- Integer version of the decoding fold. -/
theorem foldl_beBytes_int (n : Nat) : ∀ (v : Nat) (acc : Int),
    (beBytes n v).foldl (fun (a : Int) (b : Nat) => a * 256 + (b : Int)) acc
      = acc * 256 ^ n + ((v % 256 ^ n : Nat) : Int) := by
  induction n with
  | zero => intro v acc; simp [beBytes, Nat.mod_one]
  | succ n ih =>
    intro v acc
    rw [beBytes_cons, List.foldl_cons, ih]
    have h := Nat.mod_pow_succ (x := v) (b := 256) (k := n)
    rw [h]
    push_cast
    ring

theorem pow256_eq (k : Nat) : (256 : Nat) ^ k = 2 ^ (8 * k) := by
  rw [show (256:Nat) = 2 ^ 8 from by norm_num, ← pow_mul]

theorem beBytes_drop {L : Nat} (hL : L ≤ 8) (n : Nat) :
    (beBytes 8 n).drop (8 - L) = beBytes L n := by
  have hsplit : beBytes 8 n = beBytes (8 - L) (n / 256 ^ L) ++ beBytes L n := by
    have h := beBytes_add (8 - L) L n
    rw [show (8:Nat) - L + L = 8 from by omega] at h
    exact h
  rw [hsplit]
  have hlen : (beBytes (8 - L) (n / 256 ^ L)).length = 8 - L := beBytes_length _ _
  have h := List.drop_left (beBytes (8 - L) (n / 256 ^ L)) (beBytes L n)
  rw [hlen] at h
  exact h

/-- Core of the signed round-trip in the non-negative case. -/
theorem read_as_signed_no_check_nonneg (v : Int) (L : Nat) (hL1 : 1 ≤ L) (hL8 : L ≤ 8)
    (hv : 0 ≤ v) (hhi : v < ((2 ^ (7 * L - 1) : Nat) : Int)) :
    (as_vint_no_check_i64 v L).length = L ∧
    read_signed_vint (as_vint_no_check_i64 v L) = .ok (some (v, L)) := by
  set n := v.toNat with hn_def
  have hn_int : (n : Int) = v := Int.toNat_of_nonneg hv
  have hn : n < 2 ^ (7 * L - 1) := by
    have := hhi
    rw [← hn_int] at this
    exact_mod_cast this
  have hmod : v % ((2:Int) ^ 64) = v := by
    apply Int.emod_eq_of_lt hv
    calc v < ((2 ^ (7 * L - 1) : Nat) : Int) := hhi
    _ ≤ ((2 ^ 64 : Nat) : Int) := by
        have hexp : 7 * L - 1 ≤ 64 := by omega
        have h64 : (2:Nat) ^ (7 * L - 1) ≤ 2 ^ 64 :=
          Nat.pow_le_pow_right (by norm_num) hexp
        exact_mod_cast h64
    _ = (2:Int) ^ 64 := by push_cast
  have hbytes : i64ToBeBytes v = beBytes 8 n := by
    unfold i64ToBeBytes
    have hcast : ((2:Int) ^ 64) = ((2 ^ 64 : Nat) : Int) := by push_cast
    rw [hcast] at hmod ⊢
    rw [hmod]
  -- top digit below the sign bit
  have hA : (256:Nat) ^ (L - 1) = 2 ^ (8 * (L - 1)) := pow256_eq _
  have hApos : (0:Nat) < 256 ^ (L - 1) := pow_pos (by norm_num) _
  set d := n / 256 ^ (L - 1) with hd_def
  have hd8 : d < 2 ^ (8 - L) := by
    rw [hd_def, Nat.div_lt_iff_lt_mul hApos, hA, ← pow_add]
    calc n < 2 ^ (7 * L - 1) := hn
    _ ≤ 2 ^ (8 - L + 8 * (L - 1)) := Nat.pow_le_pow_right (by norm_num) (by omega)
  have hd256 : d % 256 = d := by
    apply Nat.mod_eq_of_lt
    calc d < 2 ^ (8 - L) := hd8
    _ ≤ 2 ^ 8 := Nat.pow_le_pow_right (by norm_num) (by omega)
    _ ≤ 256 := by norm_num
  have hcons : beBytes L n = d :: beBytes (L - 1) n := by
    conv_lhs => rw [show L = (L - 1) + 1 from by omega]
    rw [beBytes_cons, ← hd_def, hd256]
  have hshift : (1 : Nat) <<< (8 - L) = 2 ^ (8 - L) := by
    rw [Nat.shiftLeft_eq, one_mul]
  have hnotneg : ¬ v < 0 := by omega
  have henc : as_vint_no_check_i64 v L = (d + 2 ^ (8 - L)) :: beBytes (L - 1) n := by
    unfold as_vint_no_check_i64
    rw [hbytes, beBytes_drop hL8, hcons]
    show (if v < 0 then _ else d ||| 1 <<< (8 - L)) :: _ = _
    rw [if_neg hnotneg, hshift, lor_two_pow_of_lt hd8]
  have hlen : (as_vint_no_check_i64 v L).length = L := by
    rw [henc]
    simp only [List.length_cons, beBytes_length]
    omega
  refine ⟨hlen, ?_⟩
  rw [henc]
  have hpow_pos : (0:Nat) < 2 ^ (8 - L) := pow_pos (by norm_num) _
  have hb0ne : ¬ d + 2 ^ (8 - L) = 0 := by omega
  have hlog : Nat.log2 (d + 2 ^ (8 - L)) = 8 - L := by
    apply log2_eq_of (by omega)
    calc d + 2 ^ (8 - L) < 2 ^ (8 - L) + 2 ^ (8 - L) := by omega
    _ = 2 ^ (8 - L + 1) := by ring
  simp only [read_signed_vint]
  rw [if_neg hb0ne, hlog, show 8 - (8 - L) = L from by omega]
  have hlistlen : ((d + 2 ^ (8 - L)) :: beBytes (L - 1) n).length = L := by
    simp only [List.length_cons, beBytes_length]
    omega
  rw [hlistlen, if_neg (lt_irrefl L)]
  have hmask : (d + 2 ^ (8 - L)) &&& (0xFF >>> L) = d := by
    have h255 : (0xFF : Nat) >>> L = 2 ^ (8 - L) - 1 := by
      rw [Nat.shiftRight_eq_div_pow]
      exact two_pow_sub_one_div hL8
    rw [h255, Nat.and_pow_two_sub_one_eq_mod, Nat.add_mod_right, Nat.mod_eq_of_lt hd8]
  have hneg_false :
      (if L = 8 then (((d + 2 ^ (8 - L)) :: beBytes (L - 1) n).getD 1 0) &&& 0x80
       else (d + 2 ^ (8 - L)) &&& (0x80 >>> L)) = 0 := by
    by_cases hL7 : L = 8
    · subst hL7
      rw [if_pos rfl]
      have hcons7 : beBytes 7 n = (n / 256 ^ 6 % 256) :: beBytes 6 n := beBytes_cons 6 n
      show (beBytes 7 n).getD 0 0 &&& 0x80 = 0
      rw [hcons7]
      show (n / 256 ^ 6 % 256) &&& 0x80 = 0
      have h6 : n / 256 ^ 6 < 2 ^ 7 := by
        rw [Nat.div_lt_iff_lt_mul (by norm_num : (0:Nat) < 256 ^ 6)]
        calc n < 2 ^ (7 * 8 - 1) := hn
        _ ≤ 2 ^ 7 * 256 ^ 6 := by norm_num
      rw [Nat.mod_eq_of_lt (by omega : n / 256 ^ 6 < 256)]
      rw [show (0x80 : Nat) = 2 ^ 7 from by norm_num]
      exact land_two_pow_eq_zero (by omega)
    · rw [if_neg hL7]
      have h128 : (0x80 : Nat) >>> L = 2 ^ (7 - L) := by
        rw [Nat.shiftRight_eq_div_pow, show (0x80 : Nat) = 2 ^ 7 from by norm_num]
        rw [Nat.pow_div (by omega) (by norm_num)]
      have hd7 : d < 2 ^ (7 - L) := by
        rw [hd_def, Nat.div_lt_iff_lt_mul hApos, hA, ← pow_add]
        calc n < 2 ^ (7 * L - 1) := hn
        _ ≤ 2 ^ (7 - L + 8 * (L - 1)) := Nat.pow_le_pow_right (by norm_num) (by omega)
      rw [h128]
      apply land_two_pow_eq_zero
      have hsplit : d + 2 ^ (8 - L) = d + 2 ^ (7 - L) * 2 := by
        have : 2 ^ (8 - L) = 2 ^ (7 - L) * 2 := by
          rw [← pow_succ]
          congr 1
          omega
        omega
      rw [hsplit, Nat.add_mul_div_left _ _ (pow_pos (by norm_num) _),
        Nat.div_eq_of_lt hd7]
  rw [hneg_false]
  simp only [gt_iff_lt, lt_irrefl, if_false, if_neg]
  rw [hmask]
  have htake : (((d + 2 ^ (8 - L)) :: beBytes (L - 1) n).take L)
      = (d + 2 ^ (8 - L)) :: beBytes (L - 1) n :=
    List.take_of_length_le (by rw [hlistlen])
  rw [htake]
  simp only [List.drop_succ_cons, List.drop_zero]
  rw [foldl_beBytes_int]
  have hfin : (d : Int) * 256 ^ (L - 1) + ((n % 256 ^ (L - 1) : Nat) : Int) = v := by
    have hfin' : d * 256 ^ (L - 1) + n % 256 ^ (L - 1) = n := by
      rw [hd_def, Nat.mul_comm, Nat.div_add_mod]
    calc (d : Int) * 256 ^ (L - 1) + ((n % 256 ^ (L - 1) : Nat) : Int)
        = ((d * 256 ^ (L - 1) + n % 256 ^ (L - 1) : Nat) : Int) := by push_cast; ring
    _ = (n : Int) := by rw [hfin']
    _ = v := hn_int
  rw [hfin]

/-- Core of the signed round-trip in the negative case. -/
theorem read_as_signed_no_check_neg (v : Int) (L : Nat) (hL1 : 1 ≤ L) (hL8 : L ≤ 8)
    (hv : v < 0) (hlo : -(((2 ^ (7 * L - 1) : Nat)) : Int) ≤ v) :
    (as_vint_no_check_i64 v L).length = L ∧
    read_signed_vint (as_vint_no_check_i64 v L) = .ok (some (v, L)) := by
  set B := (2:Nat) ^ (7 * L - 1) with hB_def
  have hBpos : 0 < B := pow_pos (by norm_num) _
  have hB64 : B ≤ 2 ^ 64 := Nat.pow_le_pow_right (by norm_num) (by omega)
  set u := (v + (B : Int)).toNat with hu_def
  have hu_int : (u : Int) = v + (B : Int) := Int.toNat_of_nonneg (by omega)
  have hu_lt : u < B := by
    have : (u : Int) < (B : Int) := by omega
    exact_mod_cast this
  -- the two's-complement pattern of `v`
  set N := (v % ((2:Int) ^ 64)).toNat with hN_def
  have hBi : ((B : Nat) : Int) ≤ 2 ^ 64 := by exact_mod_cast hB64
  have hmod : v % ((2:Int) ^ 64) = v + 2 ^ 64 := by
    have h1 : (v + 2 ^ 64 * 1) % ((2:Int) ^ 64) = v % 2 ^ 64 :=
      Int.add_mul_emod_self_left v (2 ^ 64) 1
    have h2 : (v + 2 ^ 64) % ((2:Int) ^ 64) = v + 2 ^ 64 :=
      Int.emod_eq_of_lt (by omega) (by omega)
    calc v % ((2:Int) ^ 64) = (v + 2 ^ 64 * 1) % 2 ^ 64 := h1.symm
    _ = (v + 2 ^ 64) % 2 ^ 64 := by ring_nf
    _ = v + 2 ^ 64 := h2
  have hN_int : (N : Int) = v + 2 ^ 64 := by
    rw [hN_def, hmod]
    apply Int.toNat_of_nonneg
    omega
  have hN_nat : N = 2 ^ 64 - B + u := by
    have h : ((2 ^ 64 - B + u : Nat) : Int) = v + 2 ^ 64 := by
      push_cast [Nat.cast_sub hB64]
      omega
    have := hN_int.trans h.symm
    exact_mod_cast this
  have hbytes : i64ToBeBytes v = beBytes 8 N := rfl
  by_cases hL7 : L = 8
  · -- width 8: the top byte masks down to 1
    subst hL7
    have hB55 : B = 2 ^ 55 := rfl
    have hN55 : N = 2 ^ 64 - 2 ^ 55 + u := by rw [hN_nat, hB55]
    have hu55 : u < 2 ^ 55 := hB55 ▸ hu_lt
    -- head digit of the pattern is 255
    have hNdiv : N / 2 ^ 56 = 255 := by
      have hdecomp : N = 2 ^ 56 * 255 + (2 ^ 55 + u) := by rw [hN55]; omega
      rw [hdecomp, Nat.mul_add_div (by norm_num), Nat.div_eq_of_lt (by omega)]
    have hNmod56 : N % 2 ^ 56 = 2 ^ 55 + u := by
      have hdecomp : N = 2 ^ 56 * 255 + (2 ^ 55 + u) := by rw [hN55]; omega
      rw [hdecomp, Nat.mul_add_mod, Nat.mod_eq_of_lt (by omega)]
    have hcons8 : beBytes 8 N = 255 :: beBytes 7 N := by
      rw [beBytes_cons 7 N, pow256_eq, show (8:Nat) * 7 = 56 from by norm_num, hNdiv]
    have henc : as_vint_no_check_i64 v 8 = 1 :: beBytes 7 N := by
      unfold as_vint_no_check_i64
      rw [hbytes, show (8:Nat) - 8 = 0 from rfl, List.drop_zero, hcons8]
      show (if v < 0 then 255 &&& (0xFF >>> (8 - 1)) else _) :: _ = _
      rw [if_pos hv, show (255:Nat) &&& (0xFF >>> (8 - 1)) = 1 from by decide]
    have hlen : (as_vint_no_check_i64 v 8).length = 8 := by
      rw [henc]
      simp only [List.length_cons, beBytes_length]
    refine ⟨hlen, ?_⟩
    rw [henc]
    simp only [read_signed_vint]
    rw [if_neg (by norm_num : ¬ (1:Nat) = 0)]
    have hlog1 : Nat.log2 1 = 0 := by
      have h := (Nat.log2_lt (by norm_num : (1:Nat) ≠ 0)).2 (by norm_num : (1:Nat) < 2 ^ 1)
      omega
    rw [hlog1, show (8:Nat) - 0 = 8 from rfl]
    have hlistlen : ((1:Nat) :: beBytes 7 N).length = 8 := by
      simp only [List.length_cons, beBytes_length]
    rw [hlistlen, if_neg (lt_irrefl 8), if_pos rfl]
    -- the sign test reads the second byte of the pattern
    have hb1 : ((1:Nat) :: beBytes 7 N).getD 1 0 = 2 ^ 7 + u / 2 ^ 48 := by
      have hcons7 : beBytes 7 N = (N / 256 ^ 6 % 256) :: beBytes 6 N := beBytes_cons 6 N
      have he6 : u / 2 ^ 48 < 2 ^ 7 := by
        rw [Nat.div_lt_iff_lt_mul (by norm_num)]
        calc u < 2 ^ 55 := hu55
        _ ≤ 2 ^ 7 * 2 ^ 48 := by norm_num
      have hdecomp : N = 2 ^ 48 * (2 ^ 16 - 2 ^ 7 + u / 2 ^ 48) + u % 2 ^ 48 := by
        have hdm : 2 ^ 48 * (u / 2 ^ 48) + u % 2 ^ 48 = u := Nat.div_add_mod u (2 ^ 48)
        have hmul : (2:Nat) ^ 48 * (2 ^ 16 - 2 ^ 7 + u / 2 ^ 48)
            = 2 ^ 48 * (2 ^ 16 - 2 ^ 7) + 2 ^ 48 * (u / 2 ^ 48) := by ring
        rw [hmul, hN55]
        have : (2:Nat) ^ 48 * (2 ^ 16 - 2 ^ 7) = 2 ^ 64 - 2 ^ 55 := by norm_num
        omega
      have hdiv48 : N / 2 ^ 48 = 2 ^ 16 - 2 ^ 7 + u / 2 ^ 48 := by
        rw [hdecomp, Nat.mul_add_div (by norm_num),
          Nat.div_eq_of_lt (Nat.mod_lt _ (by norm_num)), Nat.add_zero]
      have hmod256 : (2 ^ 16 - 2 ^ 7 + u / 2 ^ 48) % 256 = 2 ^ 7 + u / 2 ^ 48 := by
        have hdec2 : 2 ^ 16 - 2 ^ 7 + u / 2 ^ 48 = 256 * (2 ^ 8 - 1) + (2 ^ 7 + u / 2 ^ 48) := by
          omega
        rw [hdec2, Nat.mul_add_mod, Nat.mod_eq_of_lt (by omega)]
      rw [hcons7]
      show N / 256 ^ 6 % 256 = _
      rw [pow256_eq, show (8:Nat) * 6 = 48 from by norm_num, hdiv48, hmod256]
    rw [hb1]
    have hsign : (2 ^ 7 + u / 2 ^ 48) &&& 0x80 = 2 ^ 7 := by
      rw [show (0x80 : Nat) = 2 ^ 7 from by norm_num]
      apply land_two_pow_eq_self
      have he6 : u / 2 ^ 48 < 2 ^ 7 := by
        rw [Nat.div_lt_iff_lt_mul (by norm_num)]
        calc u < 2 ^ 55 := hu55
        _ ≤ 2 ^ 7 * 2 ^ 48 := by norm_num
      omega
    rw [hsign]
    rw [if_pos (by norm_num : (2:Nat) ^ 7 > 0)]
    have htake : (((1:Nat) :: beBytes 7 N).take 8) = (1:Nat) :: beBytes 7 N :=
      List.take_of_length_le (by rw [hlistlen])
    rw [htake]
    simp only [List.drop_succ_cons, List.drop_zero]
    rw [foldl_beBytes_int]
    have hval0 : (((1:Nat) % 2 ^ (8 - 8) : Nat) : Int) - 2 ^ (8 - 8) = -1 := by norm_num
    rw [hval0]
    have hfin : (-1 : Int) * 256 ^ 7 + ((N % 256 ^ 7 : Nat) : Int) = v := by
      have h567 : (256:Nat) ^ 7 = 2 ^ 56 := by norm_num
      rw [h567, hNmod56]
      have h256i : ((256:Int)) ^ 7 = 2 ^ 56 := by norm_num
      rw [h256i]
      have hB55i : ((B : Nat) : Int) = 2 ^ 55 := by rw [hB55]; push_cast
      push_cast
      omega
    rw [hfin]
  · -- width at most 7
    have hL7' : L ≤ 7 := by omega
    set x := (2:Nat) ^ (7 - L) with hx_def
    have hxpos : 0 < x := pow_pos (by norm_num) _
    set A := (2:Nat) ^ (8 * (L - 1)) with hA_def
    have hApos : 0 < A := pow_pos (by norm_num) _
    set C := (2:Nat) ^ (8 * L) with hC_def
    have hBA : B = x * A := by
      rw [hB_def, hx_def, hA_def, ← pow_add]
      congr 1
      omega
    have hCA : C = 256 * A := by
      rw [hC_def, hA_def, show (256:Nat) = 2 ^ 8 from by norm_num, ← pow_add]
      congr 1
      omega
    have hBC : B ≤ C := Nat.pow_le_pow_right (by norm_num) (by omega)
    set k := (2:Nat) ^ (64 - 8 * L) with hk_def
    have hCk : C * k = 2 ^ 64 := by
      rw [hC_def, hk_def, ← pow_add]
      congr 1
      omega
    have hkpos : 0 < k := pow_pos (by norm_num) _
    set M := C - B + u with hM_def
    have hMC : M < C := by omega
    have hNM : N = M + C * (k - 1) := by
      have h1 : C * (k - 1) = C * k - C := by
        rw [Nat.mul_sub, Nat.mul_one]
      have h2 : C ≤ C * k := Nat.le_mul_of_pos_right C hkpos
      rw [hM_def, hN_nat, h1, hCk]
      omega
    have hNMmod : N % 256 ^ L = M % 256 ^ L := by
      rw [pow256_eq, ← hC_def, hNM, Nat.add_mul_mod_self_left]
    have hbeq : beBytes L N = beBytes L M := beBytes_congr hNMmod
    -- decompose M for its digits
    set e := u / A with he_def
    set r := u % A with hr_def
    have hrA : r < A := Nat.mod_lt _ hApos
    have hu_er : u = A * e + r := (Nat.div_add_mod u A).symm
    have hex : e < x := by
      rw [he_def, Nat.div_lt_iff_lt_mul hApos]
      calc u < B := hu_lt
      _ = x * A := hBA
    set c0 := 256 - x with hc0_def
    have hx256 : x ≤ 64 := by
      rw [hx_def]
      calc (2:Nat) ^ (7 - L) ≤ 2 ^ 6 := Nat.pow_le_pow_right (by norm_num) (by omega)
      _ = 64 := by norm_num
    have hAc0 : A * c0 = C - B := by
      rw [hc0_def, Nat.mul_sub, hCA, hBA]
      ring_nf
    have hM_decomp : M = A * (c0 + e) + r := by
      have h1 : A * (c0 + e) = A * c0 + A * e := by ring
      rw [h1, hAc0, hM_def, hu_er]
      omega
    have hc0e : c0 + e < 256 := by omega
    have hMdivA : M / A = c0 + e := by
      rw [hM_decomp, Nat.mul_add_div hApos, Nat.div_eq_of_lt hrA, Nat.add_zero]
    have hMmodA : M % A = r := by
      rw [hM_decomp, Nat.mul_add_mod, Nat.mod_eq_of_lt hrA]
    have hconsM : beBytes L M = (c0 + e) :: beBytes (L - 1) M := by
      conv_lhs => rw [show L = (L - 1) + 1 from by omega]
      rw [beBytes_cons, pow256_eq, ← hA_def, hMdivA, Nat.mod_eq_of_lt hc0e]
    -- the masked head byte
    set b0 := 2 ^ (9 - L) - x + e with hb0_def
    have h9L : (2:Nat) ^ (9 - L) = 4 * x := by
      have h97 : (9:Nat) - L = (7 - L) + 2 := by omega
      rw [h97, pow_add, ← hx_def, show (2:Nat) ^ 2 = 4 from by norm_num]
      omega
    have h8L : (2:Nat) ^ (8 - L) = 2 * x := by
      have h87 : (8:Nat) - L = (7 - L) + 1 := by omega
      rw [h87, pow_add, ← hx_def, show (2:Nat) ^ 1 = 2 from by norm_num]
      omega
    have hb0x : b0 = 3 * x + e := by
      rw [hb0_def, h9L]
      omega
    have hhead : (c0 + e) &&& (0xFF >>> (L - 1)) = b0 := by
      have hmask : (0xFF : Nat) >>> (L - 1) = 2 ^ (9 - L) - 1 := by
        rw [Nat.shiftRight_eq_div_pow, show (0xFF : Nat) = 2 ^ 8 - 1 from by norm_num,
          two_pow_sub_one_div (by omega), show 8 - (L - 1) = 9 - L from by omega]
      rw [hmask, Nat.and_pow_two_sub_one_eq_mod]
      have hdec : c0 + e = 2 ^ (9 - L) * (2 ^ (L - 1) - 1) + b0 := by
        have hmul : (2:Nat) ^ (9 - L) * 2 ^ (L - 1) = 256 := by
          rw [← pow_add, show 9 - L + (L - 1) = 8 from by omega]
          norm_num
        have h2 : (2:Nat) ^ (9 - L) * (2 ^ (L - 1) - 1) = 256 - 2 ^ (9 - L) := by
          rw [Nat.mul_sub, hmul, Nat.mul_one]
        rw [h2, hb0_def, hc0_def, h9L]
        omega
      rw [hdec, Nat.mul_add_mod, Nat.mod_eq_of_lt (by rw [hb0x, h9L]; omega)]
    have henc : as_vint_no_check_i64 v L = b0 :: beBytes (L - 1) M := by
      unfold as_vint_no_check_i64
      rw [hbytes, beBytes_drop hL8, hbeq, hconsM]
      show (if v < 0 then (c0 + e) &&& (0xFF >>> (L - 1)) else _) :: _ = _
      rw [if_pos hv, hhead]
    have hlen : (as_vint_no_check_i64 v L).length = L := by
      rw [henc]
      simp only [List.length_cons, beBytes_length]
      omega
    refine ⟨hlen, ?_⟩
    rw [henc]
    clear_value b0 c0 e r M k C A x B u N
    have hb0ne : ¬ b0 = 0 := by
      rw [hb0x]
      omega
    have hlog : Nat.log2 b0 = 8 - L := by
      apply log2_eq_of
      · rw [h8L, hb0x]; omega
      · rw [show 8 - L + 1 = 9 - L from by omega, h9L, hb0x]; omega
    simp only [read_signed_vint]
    rw [if_neg hb0ne, hlog, show 8 - (8 - L) = L from by omega]
    have hlistlen : (b0 :: beBytes (L - 1) M).length = L := by
      simp only [List.length_cons, beBytes_length]
      omega
    rw [hlistlen, if_neg (lt_irrefl L), if_neg hL7]
    -- the sign bit is set
    have hsign : b0 &&& (0x80 >>> L) = x := by
      have h128 : (0x80 : Nat) >>> L = x := by
        rw [Nat.shiftRight_eq_div_pow, show (0x80 : Nat) = 2 ^ 7 from by norm_num,
          Nat.pow_div (by omega) (by norm_num), hx_def]
      rw [h128, hx_def]
      apply land_two_pow_eq_self
      rw [← hx_def]
      have hdiv : b0 / x = 3 := by
        have heq : b0 = e + x * 3 := by rw [hb0x]; omega
        rw [heq, Nat.add_mul_div_left _ _ hxpos, Nat.div_eq_of_lt hex]
      rw [hdiv]
    rw [hsign, if_pos (by omega : x > 0)]
    have hmod8 : b0 % 2 ^ (8 - L) = x + e := by
      have hdec : b0 = 2 ^ (8 - L) * 1 + (x + e) := by
        rw [h8L, hb0x]; omega
      rw [hdec, Nat.mul_add_mod, Nat.mod_eq_of_lt (by rw [h8L]; omega)]
    rw [hmod8]
    have htake : ((b0 :: beBytes (L - 1) M).take L) = b0 :: beBytes (L - 1) M :=
      List.take_of_length_le (by rw [hlistlen])
    rw [htake]
    simp only [List.drop_succ_cons, List.drop_zero]
    rw [foldl_beBytes_int]
    have hMmod256 : M % 256 ^ (L - 1) = r := by
      rw [pow256_eq, ← hA_def, hMmodA]
    rw [hMmod256]
    have hfin : (((x + e : Nat) : Int) - 2 ^ (8 - L)) * 256 ^ (L - 1) + ((r : Nat) : Int) = v := by
      have hcast8 : ((2:Int) ^ (8 - L)) = ((2 * x : Nat) : Int) := by
        rw [← h8L]; push_cast; rfl
      have hcastA : ((256:Int) ^ (L - 1)) = ((A : Nat) : Int) := by
        rw [hA_def]
        push_cast
        rw [show ((256:Int)) = 2 ^ 8 from by norm_num, ← pow_mul]
      rw [hcast8, hcastA]
      have hueq : ((u : Nat) : Int) = (A : Int) * (e : Int) + (r : Int) := by
        exact_mod_cast congrArg (Nat.cast : Nat → Int) hu_er
      have hBeq : ((B : Nat) : Int) = (x : Int) * (A : Int) := by
        exact_mod_cast congrArg (Nat.cast : Nat → Int) hBA
      have hexpand : (((x + e : Nat) : Int) - ((2 * x : Nat) : Int)) * ((A : Nat) : Int)
          = (A : Int) * (e : Int) - (x : Int) * (A : Int) := by
        push_cast
        ring
      rw [hexpand]
      omega
    rw [hfin]

/-- Behaviour of the `as_signed_vint` width-search loop: starting at any
`l ∈ [1,8]` it lands on the first width at or after `l` whose two's-complement
range contains `val` (width 8 always fits when `-2^55 < val < 2^55`). -/
theorem signed_vint_length_from_spec (val : Int) (hlo : -((2:Int) ^ 55) < val)
    (hhi : val < (2:Int) ^ 55) :
    ∀ n l, 8 - l = n → 1 ≤ l → l ≤ 8 →
      1 ≤ signed_vint_length_from val l ∧ signed_vint_length_from val l ≤ 8 ∧
      -(((2 ^ (7 * signed_vint_length_from val l - 1) : Nat)) : Int) ≤ val ∧
      val < ((2 ^ (7 * signed_vint_length_from val l - 1) : Nat) : Int) ∧
      (∀ m, l ≤ m →
        -(((2 ^ (7 * m - 1) : Nat)) : Int) ≤ val →
        val < ((2 ^ (7 * m - 1) : Nat) : Int) →
        signed_vint_length_from val l ≤ m) := by
  have hcast : ∀ l : Nat, ((1 <<< (7 * l - 1) : Nat) : Int) = ((2 ^ (7 * l - 1) : Nat) : Int) := by
    intro l
    rw [Nat.shiftLeft_eq, one_mul]
  have hcast55 : ((2 ^ (7 * 8 - 1) : Nat) : Int) = 2 ^ 55 := by
    push_cast
  intro n
  induction n with
  | zero =>
    intro l hn h1 h8
    have hl : l = 8 := by omega
    subst hl
    have hfit : -(((1 <<< (7 * 8 - 1) : Nat)) : Int) ≤ val ∧
        val < ((1 <<< (7 * 8 - 1) : Nat) : Int) := by
      rw [hcast 8, hcast55]
      constructor <;> omega
    rw [signed_vint_length_from]
    simp only [if_pos (by omega : (8 : Nat) ≤ 8), hfit, and_self, if_pos]
    refine ⟨by omega, by omega, ?_, ?_, fun m hm _ _ => hm⟩
    · rw [← hcast 8]; exact hfit.1
    · rw [← hcast 8]; exact hfit.2
  | succ n ih =>
    intro l hn h1 h8
    rw [signed_vint_length_from]
    simp only [if_pos h8]
    by_cases hfit : -(((1 <<< (7 * l - 1) : Nat)) : Int) ≤ val ∧
        val < ((1 <<< (7 * l - 1) : Nat) : Int)
    · simp only [hfit, and_self, if_pos]
      refine ⟨h1, h8, ?_, ?_, fun m hm _ _ => hm⟩
      · rw [← hcast l]; exact hfit.1
      · rw [← hcast l]; exact hfit.2
    · simp only [hfit, if_neg, if_false]
      have hrec := ih (l + 1) (by omega) (by omega) (by omega)
      refine ⟨by omega, hrec.2.1, hrec.2.2.1, hrec.2.2.2.1, ?_⟩
      intro m hm hmlo hmhi
      have hml : m ≠ l := by
        rintro rfl
        exact hfit ⟨by rw [hcast m]; exact hmlo, by rw [hcast m]; exact hmhi⟩
      exact hrec.2.2.2.2 m (by omega) hmlo hmhi

/-- Counterexample to C3 as stated: at the boundary `v = -2^55` the encoder
rejects the value (`check_size_i64` errors on `val <= -(1 << 55)`), even though
the claimed range `[-2^55, 2^55)` includes it. -/
theorem as_signed_vint_fails_at_min :
    as_signed_vint (-(2 ^ 55)) = .error (.writeSignedVintOverflow (-(2 ^ 55))) := rfl

/-- C3 (amended): for every `v` with `-2^55 < v < 2^55`, `as_signed_vint`
succeeds and `read_signed_vint` on the encoding returns `(v, w)` where `w` is
the byte length of the encoding and the minimal width in `1..=8` with
`-2^(7w-1) <= v < 2^(7w-1)`. -/
theorem vint_roundtrip_signed (v : Int) (h1 : -((2:Int) ^ 55) < v) (h2 : v < (2:Int) ^ 55) :
    ∃ bytes w,
      as_signed_vint v = .ok bytes ∧
      read_signed_vint bytes = .ok (some (v, w)) ∧
      w = bytes.length ∧ 1 ≤ w ∧ w ≤ 8 ∧
      -(((2 ^ (7 * w - 1) : Nat)) : Int) ≤ v ∧ v < ((2 ^ (7 * w - 1) : Nat) : Int) ∧
      (∀ m, 1 ≤ m →
        -(((2 ^ (7 * m - 1) : Nat)) : Int) ≤ v → v < ((2 ^ (7 * m - 1) : Nat) : Int) →
        w ≤ m) := by
  have hspec := signed_vint_length_from_spec v h1 h2 7 1 rfl (by omega) (by omega)
  set w := signed_vint_length_from v 1 with hw_def
  have hcore : (as_vint_no_check_i64 v w).length = w ∧
      read_signed_vint (as_vint_no_check_i64 v w) = .ok (some (v, w)) := by
    rcases lt_or_le v 0 with hv | hv
    · exact read_as_signed_no_check_neg v w hspec.1 hspec.2.1 hv hspec.2.2.1
    · exact read_as_signed_no_check_nonneg v w hspec.1 hspec.2.1 hv hspec.2.2.2.1
  have henc : as_signed_vint v = .ok (as_vint_no_check_i64 v w) := by
    have hcond : ¬ (v ≤ -((1 <<< (8 * 7 - 1) : Nat) : Int) ∨
        v ≥ ((1 <<< (8 * 7 - 1) : Nat) : Int)) := by
      push_neg
      have hc : ((1 <<< (8 * 7 - 1) : Nat) : Int) = 2 ^ 55 := by
        rw [Nat.shiftLeft_eq, one_mul]
        push_cast
      rw [hc]
      constructor <;> omega
    unfold as_signed_vint check_size_i64
    rw [if_neg hcond]
    rfl
  exact ⟨as_vint_no_check_i64 v w, w, henc, hcore.2, hcore.1.symm,
    hspec.1, hspec.2.1, hspec.2.2.1, hspec.2.2.2.1, hspec.2.2.2.2⟩

/-- Witness for the amended C3 at `v = -200`. -/
theorem vint_roundtrip_signed_witness :
    (-((2:Int) ^ 55) < -200) ∧ ((-200 : Int) < 2 ^ 55) ∧
    (∃ bytes w,
      as_signed_vint (-200) = .ok bytes ∧
      read_signed_vint bytes = .ok (some (-200, w)) ∧
      w = bytes.length ∧ 1 ≤ w ∧ w ≤ 8 ∧
      -(((2 ^ (7 * w - 1) : Nat)) : Int) ≤ -200 ∧ (-200 : Int) < ((2 ^ (7 * w - 1) : Nat) : Int) ∧
      (∀ m, 1 ≤ m →
        -(((2 ^ (7 * m - 1) : Nat)) : Int) ≤ -200 → (-200 : Int) < ((2 ^ (7 * m - 1) : Nat) : Int) →
        w ≤ m)) :=
  ⟨by norm_num, by norm_num, vint_roundtrip_signed (-200) (by norm_num) (by norm_num)⟩

/-! Byte-array readers (`tools.rs` `arr_to_u64` / `arr_to_i64`). -/

/-- Result of a Rust function that may panic: `panicked` models an
out-of-bounds index. -/
inductive RustResult (α : Type) where
  | ok (val : α)
  | err (e : ToolError)
  | panicked
deriving Repr, DecidableEq

/-- `tools.rs` `arr_to_u64`. -/
def arr_to_u64 (arr : List Nat) : RustResult Nat :=
  if arr.length > 8 then .err (.readU64Overflow arr)
  else .ok (arr.foldl (fun val byte => val * 256 + byte) 0)

/-- `tools.rs` `arr_to_i64`.  The access `arr[0]` panics on an empty slice —
modelled by `RustResult.panicked` when the list has no head. -/
def arr_to_i64 (arr : List Nat) : RustResult Int :=
  if arr.length > 8 then .err (.readI64Overflow arr)
  else
    match arr.head? with
    | none => .panicked
    | some b0 =>
      if b0 > 127 then
        if arr.length = 8 then
          -- i64::from_be_bytes: two's-complement value of the 8-byte pattern
          .ok (((arr.foldl (fun val byte => val * 256 + byte) 0 : Nat) : Int) - 2 ^ 64)
        else
          .ok (-((((1 <<< (arr.length * 8) : Nat) : Int))
            - ((arr.foldl (fun val byte => val * 256 + byte) 0 : Nat) : Int)))
      else
        .ok ((arr.foldl (fun val byte => val * 256 + byte) 0 : Nat) : Int)

/-- C6: `arr_to_u64` on the empty slice returns `Ok(0)`, but `arr_to_i64`
panics there: after the `len > 8` guard it reads `arr[0]` unconditionally,
contradicting its documentation (errors only for slices longer than 8) and
the spec ("empty-byte payloads decode to zero / zero"). -/
theorem arr_to_empty_behaviour :
    arr_to_u64 [] = .ok 0 ∧ arr_to_i64 [] = .panicked :=
  ⟨rfl, rfl⟩

/-! Schema model: `TagDataType`, `PathPart`, `EBMLSize`, dispatch tables. -/

/-- `specification/src/lib.rs` `TagDataType`. -/
inductive TagDataType where
  | master
  | unsignedInt
  | integer
  | utf8
  | binary
  | float
deriving Repr, DecidableEq

/-- Runtime `PathPart` (`Id(u64)` or `Global((min, max))`). -/
inductive PathPart where
  | id (id : Nat)
  | global (bounds : Option Nat × Option Nat)
deriving Repr, DecidableEq

/-- `tag_iterator_util.rs` `EBMLSize`. -/
inductive EBMLSize where
  | known (size : Nat)
  | unknown
deriving Repr, DecidableEq

def EBMLSize.is_known : EBMLSize → Bool
  | known _ => true
  | unknown => false

/-- The `value()` accessor used by `tag_iterator.rs` on `Known` sizes (every
use is guarded by `is_known`; `unknown` never reaches it). -/
def EBMLSize.value : EBMLSize → Nat
  | known s => s
  | unknown => 0

/-- `tag_iterator_util.rs` `EBMLSize::new`: an all-ones vint payload of the
given width means `Unknown`, everything else is `Known`. -/
def EBMLSize.new (size : Nat) (vintLength : Nat) : EBMLSize :=
  if 1 ≤ vintLength ∧ vintLength ≤ 8 ∧ size = (1 <<< (7 * vintLength)) - 1 then .unknown
  else .known size

/-- The dispatch tables a compiled specification provides to the codec
(`EbmlSpecification::get_tag_data_type` / `get_path_by_id`). -/
structure Spec where
  getTagDataType : Nat → Option TagDataType
  getPathById : Nat → List PathPart

/-! Path validation (`spec_util.rs`). -/

/-- `spec_util.rs` `is_parent`. -/
def is_parent (spec : Spec) (currentId testId : Nat) : Bool :=
  (spec.getPathById currentId).any fun p => p = .id testId

/-- `spec_util.rs` `is_sibling`. -/
def is_sibling (spec : Spec) (currentId testId : Nat) : Bool :=
  spec.getPathById currentId = spec.getPathById testId

/-- `spec_util.rs` `is_ended_by`: parent, direct sibling, or root element. -/
def is_ended_by (spec : Spec) (currentId testId : Nat) : Bool :=
  is_parent spec currentId testId ||
  is_sibling spec currentId testId ||
  ((spec.getTagDataType testId).isSome && (spec.getPathById testId).isEmpty)

/-- The `for` loop of `spec_util.rs` `validate_tag_path`, followed by its
final check.  `docPath` carries `(id, size, _)` for each open ancestor,
outermost first; `pathMarker` and `globalCounter` are the loop state. -/
def validate_tag_path_go (spec : Spec) (tagId : Nat) (path : List PathPart) :
    List (Nat × EBMLSize × Nat) → Nat → Nat → Bool
  | [], pathMarker, globalCounter =>
    -- "Validate that we compared ALL parents in the path" — or the last
    -- part is a global whose minimum was met
    path.length = pathMarker ||
      (path.length - 1 = pathMarker &&
        match path.get? pathMarker with
        | some (.global (min, _)) => globalCounter ≥ min.getD 0
        | _ => false)
  | item :: rest, pathMarker, globalCounter =>
    let currentNodeId := item.1
    if ¬ (item.2.1.is_known) ∧ is_ended_by spec currentNodeId tagId then
      true
    else if pathMarker ≥ path.length then
      false
    else
      match path.get? pathMarker with
      | some (.id id) =>
        if id ≠ currentNodeId then false
        else validate_tag_path_go spec tagId path rest (pathMarker + 1) globalCounter
      | some (.global (min, max)) =>
        let globalCounter := globalCounter + 1
        if max.isSome ∧ globalCounter > max.getD 0 then false
        else if decide (path.length > pathMarker + 1) &&
            (match path.get? (pathMarker + 1) with
             | some (.id id) => decide (id = currentNodeId)
             | _ => false) then
          if min.isSome ∧ globalCounter < min.getD 0 then false
          else validate_tag_path_go spec tagId path rest (pathMarker + 2) 0
        else validate_tag_path_go spec tagId path rest pathMarker globalCounter
      | none => false

/-- `spec_util.rs` `validate_tag_path`. -/
def validate_tag_path (spec : Spec) (tagId : Nat)
    (docPath : List (Nat × EBMLSize × Nat)) : Bool :=
  validate_tag_path_go spec tagId (spec.getPathById tagId) docPath 0 0

/-! The schema compiler's injected global variants
(`specification-derive/src/attr.rs`, `pathing.rs`). -/

/-- Longest decimal-digit prefix of a character list. -/
def takeDigits : List Char → (List Char × List Char)
  | [] => ([], [])
  | c :: rest =>
    if c.isDigit then
      let (ds, rest') := takeDigits rest
      (c :: ds, rest')
    else ([], c :: rest)

def digitsToNat (ds : List Char) : Nat :=
  ds.foldl (fun acc c => acc * 10 + (c.toNat - '0'.toNat)) 0

/-- `pathing.rs` `PathPart::parse`, global branch: inside the parentheses an
optional decimal `min` (absent exactly when `-` comes first), the mandatory
`-`, then an optional decimal `max`. -/
def parseGlobal (content : List Char) : Option (Option Nat × Option Nat) :=
  let (minDigits, rest) := takeDigits content
  let min : Option Nat := if minDigits.isEmpty then none else some (digitsToNat minDigits)
  match rest with
  | '-' :: rest' =>
    let (maxDigits, rest'') := takeDigits rest'
    let max : Option Nat := if maxDigits.isEmpty then none else some (digitsToNat maxDigits)
    if rest''.isEmpty then some (min, max) else none
  | _ => none

/-- One schema variant as `impl_ebml_specification` sees it after parsing its
attributes. -/
structure SpecVariant where
  name : String
  id : Nat
  dataType : TagDataType
  docPath : Option (List PathPart)
deriving Repr, DecidableEq

/-- `attr.rs` `impl_ebml_specification` starts by pushing the two global
variants: `Crc32` with `#[id(0xbf)] #[data_type(..Binary)] #[doc_path((1-))]`
and `Void` with `#[id(0xec)] #[data_type(..Binary)] #[doc_path((-))]`; their
single-segment paths go through the `PathPart::parse` global branch. -/
def injectedVariants : List SpecVariant :=
  [ { name := "Crc32", id := 0xbf, dataType := .binary,
      docPath := (parseGlobal "1-".toList).map fun g => [PathPart.global g] },
    { name := "Void", id := 0xec, dataType := .binary,
      docPath := (parseGlobal "-".toList).map fun g => [PathPart.global g] } ]

/-- The `get_path_by_id` arms that `attr.rs` `get_impl` emits for the two
injected variants (`PathPart::Global((min, max))` with the parsed bounds). -/
def injectedPath (id : Nat) : List PathPart :=
  match (injectedVariants.find? fun v => v.id = id).bind (·.docPath) with
  | some p => p
  | none => []

/-- The dispatch tables of `tests/test_spec.rs` `TestSpec` — the committed
expansion of the `ebml_specification` derive macro over the test schema. -/
def testSpecDataType (id : Nat) : Option TagDataType :=
  match id with
  | 129 => some .master          -- Root
  | 16641 => some .unsignedInt   -- Int
  | 16642 => some .utf8          -- String
  | 16643 => some .master        -- Parent
  | 2163457 => some .unsignedInt -- Child
  | 440786851 => some .master    -- Ebml
  | 408125543 => some .master    -- Segment
  | 131 => some .unsignedInt     -- TrackType
  | 524531317 => some .master    -- Cluster
  | 151 => some .unsignedInt     -- CueRefCluster
  | 16640 => some .unsignedInt   -- Count
  | 161 => some .binary          -- Block
  | 163 => some .binary          -- SimpleBlock
  | 191 => some .binary          -- Crc32
  | 236 => some .binary          -- Void
  | _ => none

def testSpecPath (id : Nat) : List PathPart :=
  match id with
  | 16641 => [.id 129]
  | 16642 => [.id 129]
  | 16643 => [.id 129]
  | 2163457 => [.id 129, .id 16643]
  | 131 => [.id 408125543]
  | 524531317 => [.id 408125543]
  | 151 => [.id 408125543, .id 524531317]
  | 16640 => [.id 408125543, .id 524531317]
  | 161 => [.id 408125543, .id 524531317]
  | 163 => [.id 408125543, .id 524531317]
  | 191 => [.global (some 1, none)]
  | 236 => [.global (none, none)]
  | _ => []

def testSpec : Spec := ⟨testSpecDataType, testSpecPath⟩

/-- Counterexample to C7 as stated: the compiler injects `Crc32` with doc
path `(1-)`, i.e. a Global segment with lower bound `1` — not an unbounded
Global — and the path validator therefore rejects `Crc32` (id `0xBF`) at
depth 0 (empty ancestor stack), while `Void` (id `0xEC`) is accepted there. -/
theorem crc32_injected_with_lower_bound :
    injectedPath 0xbf = [.global (some 1, none)] ∧
    validate_tag_path testSpec 0xbf [] = false ∧
    validate_tag_path testSpec 0xec [] = true := by
  refine ⟨?_, rfl, rfl⟩
  rfl

/-- C7 (amended): the compiler always injects `Crc32` (id `0xBF`) and `Void`
(id `0xEC`), both of data type Binary; `Void`'s emitted path is the single
unbounded Global `(-)` (placeable at any depth ≥ 0), while `Crc32`'s is the
Global `(1-)` with lower bound 1 and no upper bound (placeable only at
depth ≥ 1).  The committed derive expansion in `tests/test_spec.rs` agrees. -/
theorem injected_global_variants :
    injectedVariants.map (fun v => (v.id, v.dataType)) =
      [(0xbf, .binary), (0xec, .binary)] ∧
    injectedPath 0xbf = [.global (some 1, none)] ∧
    injectedPath 0xec = [.global (none, none)] ∧
    testSpecPath 0xbf = injectedPath 0xbf ∧
    testSpecPath 0xec = injectedPath 0xec ∧
    testSpecDataType 0xbf = some .binary ∧
    testSpecDataType 0xec = some .binary := by
  refine ⟨rfl, rfl, rfl, rfl, rfl, rfl, rfl⟩

/-! Tag values and the writer (`tag_writer.rs`). -/

mutual
/-- `specification` `Master<T>`. -/
inductive MasterVal where
  | start
  | end_
  | full (children : List Tag)

/-- A schema tag value: the id together with its typed payload, exactly the
shapes the derive macro gives the enum variants; `raw` is the
`RawTag(id, bytes)` sentinel.  Utf8 payloads are carried as their byte
sequence, float payloads as their 64-bit pattern. -/
inductive Tag where
  | uint (id : Nat) (data : Nat)
  | sint (id : Nat) (data : Int)
  | utf8 (id : Nat) (data : List Nat)
  | binary (id : Nat) (data : List Nat)
  | float (id : Nat) (bits : Nat)
  | master (id : Nat) (m : MasterVal)
  | raw (id : Nat) (data : List Nat)
end

/-- `EbmlTag::get_id`. -/
def Tag.get_id : Tag → Nat
  | .uint id _ => id
  | .sint id _ => id
  | .utf8 id _ => id
  | .binary id _ => id
  | .float id _ => id
  | .master id _ => id
  | .raw id _ => id

/-- `EbmlTag::as_unsigned_int`. -/
def Tag.as_unsigned_int : Tag → Option Nat
  | .uint _ v => some v
  | _ => none

/-- `EbmlTag::as_signed_int`. -/
def Tag.as_signed_int : Tag → Option Int
  | .sint _ v => some v
  | _ => none

/-- `EbmlTag::as_utf8` (payload bytes). -/
def Tag.as_utf8 : Tag → Option (List Nat)
  | .utf8 _ v => some v
  | _ => none

/-- `EbmlTag::as_binary` (also exposes `RawTag` data, as in the derive). -/
def Tag.as_binary : Tag → Option (List Nat)
  | .binary _ v => some v
  | .raw _ v => some v
  | _ => none

/-- `EbmlTag::as_float` (64-bit pattern). -/
def Tag.as_float : Tag → Option Nat
  | .float _ v => some v
  | _ => none

/-- `EbmlTag::as_master`. -/
def Tag.as_master : Tag → Option MasterVal
  | .master _ m => some m
  | _ => none

/-- `errors.rs` `TagWriterError`. -/
inductive TagWriterError where
  | tagIdError (id : Nat)
  | tagSizeError (message : String)
  | unexpectedClosingTag (tagId : Nat) (expectedId : Option Nat)
  | writeError
deriving Repr, DecidableEq

/-- Debug formatting of a byte vector (`{arr:?}`). -/
def listDebug (l : List Nat) : String :=
  "[" ++ String.intercalate ", " (l.map toString) ++ "]"

/-- The `Display` impl of `errors.rs` `ToolError` (used where the writer
stringifies a vint error into `TagSizeError`). -/
def ToolError.display : ToolError → String
  | .readVintOverflow => "Unrepresentable Vint size encountered."
  | .writeVintOverflow val => s!"Value too large to be written as a vint: {val}"
  | .writeSignedVintOverflow val => s!"Value outside range to be written as a vint: {val}"
  | .readU64Overflow arr => "Could not read unsigned int from array: " ++ listDebug arr
  | .readI64Overflow arr => "Could not read int from array: " ++ listDebug arr
  | .readF64Mismatch arr => "Could not read float from array: " ++ listDebug arr
  | .fromUtf8Error arr => "Could not read utf8 data: " ++ listDebug arr

/-- `tag_writer.rs` `TagWriter` state: destination sink (a byte vector; the
sink contract never fails here), the open-tag stack (a `Vec`, last element on
top), and the append-only working buffer. -/
structure TagWriter where
  dest : List Nat
  open_tags : List (Nat × EBMLSize)
  working_buffer : List Nat
deriving Repr, DecidableEq

/-- `TagWriter::new`. -/
def TagWriter.new : TagWriter := ⟨[], [], []⟩

/-- `id.to_be_bytes().iter().skip_while(|&v| *v == 0u8)`. -/
def idBytes (id : Nat) : List Nat := (beBytes 8 id).dropWhile (· = 0)

/-- `TagWriter::start_tag`. -/
def start_tag (w : TagWriter) (id : Nat) : TagWriter :=
  { w with open_tags := w.open_tags ++ [(id, .known w.working_buffer.length)] }

/-- `TagWriter::end_tag`.  Returns the mutated state together with the
optional error (the `Vec::pop` happens before the id check, so a mismatched
close still pops the frame). -/
def end_tag (w : TagWriter) (id : Nat) : TagWriter × Option TagWriterError :=
  match w.open_tags.getLast? with
  | some openTag =>
    let w' := { w with open_tags := w.open_tags.dropLast }
    if openTag.1 = id then
      match openTag.2 with
      | .known start =>
        let size := w'.working_buffer.length - start
        match as_vint size with
        | .error e => (w', some (.tagSizeError e.display))
        | .ok size_vint =>
          ({ w' with working_buffer :=
              w'.working_buffer.take start ++ (idBytes openTag.1 ++ size_vint)
                ++ w'.working_buffer.drop start }, none)
      | .unknown => (w', none)
    else
      (w', some (.unexpectedClosingTag id (some openTag.1)))
  | none => (w, some (.unexpectedClosingTag id none))

/-- `TagWriter::private_flush` (the sink accepts all bytes). -/
def private_flush (w : TagWriter) : TagWriter :=
  { w with dest := w.dest ++ w.working_buffer, working_buffer := [] }

/-- `TagWriter::write_unsigned_int_tag`: shortest of {1,2,4,8} bytes. -/
def write_unsigned_int_tag (w : TagWriter) (id : Nat) (data : Nat) : TagWriter :=
  let buf := w.working_buffer ++ idBytes id
  let buf :=
    if data < 2 ^ 8 then buf ++ [0x81] ++ beBytes 1 data
    else if data < 2 ^ 16 then buf ++ [0x82] ++ beBytes 2 data
    else if data < 2 ^ 32 then buf ++ [0x84] ++ beBytes 4 data
    else buf ++ [0x88] ++ beBytes 8 data
  { w with working_buffer := buf }

/-- `TagWriter::write_signed_int_tag`: shortest of {i8,i16,i32,i64} that
fits, emitted as that width's two's-complement bytes. -/
def write_signed_int_tag (w : TagWriter) (id : Nat) (data : Int) : TagWriter :=
  let buf := w.working_buffer ++ idBytes id
  let buf :=
    if -(2^7) ≤ data ∧ data < 2^7 then
      buf ++ [0x81] ++ beBytes 1 (data % (2^8 : Int)).toNat
    else if -(2^15) ≤ data ∧ data < 2^15 then
      buf ++ [0x82] ++ beBytes 2 (data % (2^16 : Int)).toNat
    else if -(2^31) ≤ data ∧ data < 2^31 then
      buf ++ [0x84] ++ beBytes 4 (data % (2^32 : Int)).toNat
    else
      buf ++ [0x88] ++ beBytes 8 (data % (2^64 : Int)).toNat
  { w with working_buffer := buf }

/-- `TagWriter::write_utf8_tag` / `write_binary_tag`: id bytes, vint size,
payload.  On a vint overflow the id bytes are already in the buffer. -/
def write_sized_tag (w : TagWriter) (id : Nat) (data : List Nat) :
    TagWriter × Option TagWriterError :=
  let buf := w.working_buffer ++ idBytes id
  match as_vint data.length with
  | .error e => ({ w with working_buffer := buf }, some (.tagSizeError e.display))
  | .ok size_vint =>
    ({ w with working_buffer := buf ++ size_vint ++ data }, none)

/-- `TagWriter::write_float_tag`: always 8 bytes. -/
def write_float_tag (w : TagWriter) (id : Nat) (bits : Nat) : TagWriter :=
  { w with working_buffer := w.working_buffer ++ idBytes id ++ [0x88] ++ beBytes 8 bits }

/-- Outcome of a `&mut self` writer call: the state survives an `Err`;
`panicked` models the "Bad specification implementation" panic (a payload
accessor returning `None` for the id's declared type). -/
inductive WriteOutcome where
  | ok (w : TagWriter)
  | err (w : TagWriter) (e : TagWriterError)
  | panicked
deriving Repr, DecidableEq

/-- The flush policy at the end of `TagWriter::write`: drain the working
buffer when no open frame has a Known size. -/
def flush_if_no_known (w : TagWriter) : TagWriter :=
  if ¬ w.open_tags.any (fun t => t.2.is_known) then private_flush w else w

/-- Apply the flush policy after a successful dispatch; an `Err` from the
dispatch propagates before the flush check (`?` in the source). -/
def write_finish : WriteOutcome → WriteOutcome
  | .ok w' => .ok (flush_if_no_known w')
  | r => r

/-- The `UnsignedInt` arm of `TagWriter::write` (`.unwrap_or_else(panic)`). -/
def write_uint_arm (w : TagWriter) (id : Nat) : Option Nat → WriteOutcome
  | some val => .ok (write_unsigned_int_tag w id val)
  | none => .panicked

/-- The `Integer` arm. -/
def write_sint_arm (w : TagWriter) (id : Nat) : Option Int → WriteOutcome
  | some val => .ok (write_signed_int_tag w id val)
  | none => .panicked

/-- The `Utf8`/`Binary` arms (both emit id, vint size, payload bytes). -/
def write_sized_arm (w : TagWriter) (id : Nat) : Option (List Nat) → WriteOutcome
  | some val =>
    match write_sized_tag w id val with
    | (w', none) => .ok w'
    | (w', some e) => .err w' e
  | none => .panicked

/-- The `Float` arm. -/
def write_float_arm (w : TagWriter) (id : Nat) : Option Nat → WriteOutcome
  | some val => .ok (write_float_tag w id val)
  | none => .panicked

/-- The `Master::End` sub-arm (`self.end_tag(tag_id)?`). -/
def write_end_arm (w : TagWriter) (id : Nat) : WriteOutcome :=
  match end_tag w id with
  | (w', none) => .ok w'
  | (w', some e) => .err w' e

mutual
/-- `TagWriter::write`: dispatch on the id's data type, then apply the flush
policy.  An id outside the specification dispatches to the binary path
(`RawTag` payloads are written as binary, as the crate's tests exercise). -/
def write (spec : Spec) (w : TagWriter) (tag : Tag) : WriteOutcome :=
  write_finish
    (match spec.getTagDataType tag.get_id with
     | some .unsignedInt => write_uint_arm w tag.get_id tag.as_unsigned_int
     | some .integer => write_sint_arm w tag.get_id tag.as_signed_int
     | some .utf8 => write_sized_arm w tag.get_id tag.as_utf8
     | some .float => write_float_arm w tag.get_id tag.as_float
     | some .master => write_master_arm spec w tag
     | some .binary => write_sized_arm w tag.get_id tag.as_binary
     | none => write_sized_arm w tag.get_id tag.as_binary)

/-- The `Master` arm of `TagWriter::write` with `tag.as_master()` inlined
(only a `master` value yields `Some`; anything else is the panic). -/
def write_master_arm (spec : Spec) (w : TagWriter) (tag : Tag) : WriteOutcome :=
  match tag with
  | .master id .start => .ok (start_tag w id)
  | .master id .end_ => write_end_arm w id
  | .master id (.full children) =>
    match write_list spec (start_tag w id) children with
    | .ok w' => write_end_arm w' id
    | r => r
  | _ => .panicked

/-- The `for child in children { self.write(child)?; }` loop in the
`Master::Full` branch. -/
def write_list (spec : Spec) (w : TagWriter) : List Tag → WriteOutcome
  | [] => .ok w
  | t :: ts =>
    match write spec w t with
    | .ok w' => write_list spec w' ts
    | r => r
end

/-- C5: with at least one open master frame, writing `Master::End` with an id
different from the most recently opened still-open frame fails with
`UnexpectedClosingTag{tag_id, expected_id = Some(top id)}` and commits no
bytes: destination and working buffer are unchanged (the mismatched frame is
popped, per `Vec::pop` running before the id check). -/
theorem write_end_mismatch (spec : Spec) (w : TagWriter) (id id' : Nat) (sz : EBMLSize)
    (rest : List (Nat × EBMLSize)) (hstack : w.open_tags = rest ++ [(id', sz)])
    (hne : id ≠ id') (hmaster : spec.getTagDataType id = some .master) :
    ∃ w', write spec w (.master id .end_) = .err w' (.unexpectedClosingTag id (some id')) ∧
      w'.dest = w.dest ∧ w'.working_buffer = w.working_buffer := by
  refine ⟨{ w with open_tags := rest }, ?_, rfl, rfl⟩
  have hend : end_tag w id
      = ({ w with open_tags := rest }, some (.unexpectedClosingTag id (some id'))) := by
    unfold end_tag
    rw [hstack, List.getLast?_concat, List.dropLast_concat]
    simp only []
    rw [if_neg (show ¬ id' = id from fun h => hne h.symm)]
  unfold write
  simp only [Tag.get_id, hmaster, hend]
  unfold write_master_arm write_end_arm
  rw [hend]
  rfl

/-- Witness for C5: closing `Parent` (0x4103) while `Root` (0x81) is open. -/
theorem write_end_mismatch_witness :
    ({ dest := [], open_tags := [(129, .known 0)], working_buffer := [] } : TagWriter).open_tags
        = [] ++ [(129, EBMLSize.known 0)] ∧
    (16643 ≠ 129) ∧ testSpec.getTagDataType 16643 = some .master ∧
    (∃ w', write testSpec { dest := [], open_tags := [(129, .known 0)], working_buffer := [] }
          (.master 16643 .end_)
        = .err w' (.unexpectedClosingTag 16643 (some 129)) ∧
      w'.dest = ({ dest := [], open_tags := [(129, .known 0)], working_buffer := [] } : TagWriter).dest ∧
      w'.working_buffer
        = ({ dest := [], open_tags := [(129, .known 0)], working_buffer := [] } : TagWriter).working_buffer) :=
  ⟨rfl, by decide, rfl,
    write_end_mismatch testSpec _ 16643 129 (.known 0) [] rfl (by decide) rfl⟩

/-- C10: with no open master frame, writing any `Master::End` fails with
`UnexpectedClosingTag{tag_id, expected_id = None}` and the writer state —
destination sink and working buffer included — is exactly unchanged. -/
theorem write_end_empty_stack (spec : Spec) (w : TagWriter) (id : Nat)
    (hstack : w.open_tags = []) (hmaster : spec.getTagDataType id = some .master) :
    write spec w (.master id .end_) = .err w (.unexpectedClosingTag id none) := by
  have hend : end_tag w id = (w, some (.unexpectedClosingTag id none)) := by
    unfold end_tag
    rw [hstack]
    rfl
  unfold write
  simp only [Tag.get_id, hmaster]
  unfold write_master_arm write_end_arm
  rw [hend]
  rfl

/-- Witness for C10: closing `Root` (0x81) on a fresh writer. -/
theorem write_end_empty_stack_witness :
    (TagWriter.new.open_tags = []) ∧ testSpec.getTagDataType 129 = some .master ∧
    write testSpec TagWriter.new (.master 129 .end_)
      = .err TagWriter.new (.unexpectedClosingTag 129 none) :=
  ⟨rfl, rfl, write_end_empty_stack testSpec TagWriter.new 129 rfl rfl⟩

/-! The reader (`tag_iterator.rs`). -/

/-- `CorruptedFileError` with the field shapes `tag_iterator.rs` constructs
(the copy of `errors.rs` in the snapshot is an older revision without the
`position` fields, the optional parent, `OversizedChildElement` and
`InvalidTagSize`; the iterator's construction sites are authoritative).
`invalidTagSize` is `Modelled from the spec:` the consumer-configured
maximum-tag-size cutoff (`set_max_allowable_tag_size`) appears only in the
crate's tests, not under `src/`. -/
inductive CorruptedFileError where
  | invalidTagId (tagId : Nat) (position : Nat)
  | invalidTagData (tagId : Nat) (position : Nat)
  | hierarchyError (foundTagId : Nat) (currentParentId : Option Nat)
  | oversizedChildElement (position : Nat) (tagId : Nat) (size : Nat)
  | invalidTagSize (position : Nat) (tagId : Nat) (size : Nat)
deriving Repr, DecidableEq

/-- `errors.rs` `TagIteratorError` (the byte source never fails here, so
`ReadError` carries no payload). -/
inductive TagIteratorError where
  | corruptedFileData (e : CorruptedFileError)
  | unexpectedEOF (tagStart : Nat) (tagId : Option Nat) (tagSize : Option Nat)
      (partialData : Option (List Nat))
  | corruptedTagData (tagId : Nat) (problem : ToolError)
  | readError
deriving Repr, DecidableEq

/-- `tag_iterator.rs` error-allowance bits. -/
def INVALID_TAG_ID_ERROR : Nat := 0x01
def INVALID_HIERARCHY_ERROR : Nat := 0x02
def OVERSIZED_CHILD_ERROR : Nat := 0x04

/-- `tag_iterator_util.rs` `ProcessingTag`. -/
structure ProcessingTag where
  tag : Tag
  size : EBMLSize
  tag_start : Nat
  data_start : Nat

/-- `ProcessingTag::is_ended_by` (paths are looked up through the tag's id,
as the derive's `get_path_by_tag` does). -/
def ProcessingTag.is_ended_by (spec : Spec) (p : ProcessingTag) (id : Nat) : Bool :=
  Ebml.is_ended_by spec p.tag.get_id id

/-- The reader state.  The byte source and the chunked internal buffer are
collapsed into the full stream `bytes` with cursor `pos`: this models a
`TagIterator` whose internal buffer capacity is at least the stream length,
so bytes beyond the stream read as the buffer's initial zeros.
`max_allowable_tag_size` is `Modelled from the spec:` "an optional
maximum-tag-size cutoff that causes `InvalidTagSize{position, tag_id, size}`
when a declared length exceeds it" — its setter exists only in the crate's
tests, not under `src/`. -/
structure TagIteratorState where
  bytes : List Nat
  pos : Nat
  tag_ids_to_buffer : List Nat
  allowed_errors : Nat
  max_allowable_tag_size : Option Nat
  tag_stack : List ProcessingTag
  emission_queue : List (Except TagIteratorError (Tag × Nat))
  last_emitted_tag_offset : Nat
  has_determined_doc_path : Bool

/-- `TagIterator::with_capacity` initial state. -/
def TagIteratorState.new (bytes : List Nat) (tagsToBuffer : List Nat) : TagIteratorState :=
  { bytes := bytes, pos := 0, tag_ids_to_buffer := tagsToBuffer, allowed_errors := 0,
    max_allowable_tag_size := none, tag_stack := [], emission_queue := [],
    last_emitted_tag_offset := 0, has_determined_doc_path := false }

/-- A byte of the internal buffer: stream content, or the buffer's initial
zero past the end of the stream. -/
def byteAt (bytes : List Nat) (i : Nat) : Nat := bytes.getD i 0

/-- `u8::leading_zeros` on a byte value, by direct comparison (structural,
so concrete reader runs evaluate in the kernel). -/
def u8_leading_zeros (b : Nat) : Nat :=
  if 128 ≤ b then 0 else if 64 ≤ b then 1 else if 32 ≤ b then 2
  else if 16 ≤ b then 3 else if 8 ≤ b then 4 else if 4 ≤ b then 5
  else if 2 ≤ b then 6 else if 1 ≤ b then 7 else 8

/-- `TagIterator::peek_tag_id`: the id vint read with its marker preserved. -/
def peek_tag_id (st : TagIteratorState) : Nat × Nat :=
  let b0 := byteAt st.bytes st.pos
  if b0 = 0 then (0, 1)
  else
    let length := u8_leading_zeros b0 + 1
    let val := (List.range (length - 1)).foldl
      (fun v i => v * 256 + byteAt st.bytes (st.pos + 1 + i)) b0
    (val, length)

/-- `tools::read_vint` applied to the buffer slice starting at `start`
(`&self.buffer[start..]`).  The slice runs to the buffer's capacity, beyond
the stream it holds the initial zeros, and it is never shorter than a vint,
so `read_vint`'s not-enough-data branch cannot fire here. -/
def read_vint_buffered (bytes : List Nat) (start : Nat) : Except ToolError (Nat × Nat) :=
  let b0 := byteAt bytes start
  if b0 = 0 then .error .readVintOverflow
  else
    let length := u8_leading_zeros b0 + 1
    let value := b0 - 1 <<< (8 - length)
    .ok ((List.range (length - 1)).foldl
      (fun v i => v * 256 + byteAt bytes (start + 1 + i)) value, length)

/-- The stream-start heuristic inside `peek_valid_tag_header`: trust the
first validated tag and synthesize its declared ancestors onto the stack —
with `Master::Start` sentinels (`get_master_tag(*id, Master::Start)`) and
Unknown sizes. -/
def determine_doc_path (spec : Spec) (st : TagIteratorState) (tagId : Nat) :
    TagIteratorState :=
  if st.has_determined_doc_path then st
  else
    if (spec.getPathById tagId).all (fun p => match p with | .id _ => true | _ => false) then
      { st with
        tag_stack := (spec.getPathById tagId).map fun p =>
          match p with
          | .id id => ⟨.master id .start, .unknown, 0, 0⟩
          | .global _ => ⟨.master 0 .start, .unknown, 0, 0⟩  -- unreachable!() under the guard
        has_determined_doc_path := true }
    else st

/-- `TagIterator::is_invalid_tag_size`: some Known-sized open ancestor ends
before the candidate would. -/
def is_invalid_tag_size (st : TagIteratorState) (size : Nat) : Bool :=
  (st.tag_stack.filter fun p => p.size.is_known).any fun t =>
    t.data_start + t.size.value < st.pos + size

/-- The allowance-guarded hierarchy and containment checks of
`peek_valid_tag_header` (the state is the one on which the stream-start
heuristic may already have run). -/
def peek_checks2 (spec : Spec) (st : TagIteratorState) (tag_id : Nat)
    (spec_tag_type : Option TagDataType) (size : EBMLSize) (header_len : Nat) :
    TagIteratorState × Except TagIteratorError (Nat × Option TagDataType × EBMLSize × Nat) :=
  if st.allowed_errors &&& INVALID_HIERARCHY_ERROR = 0 ∧ spec_tag_type.isSome ∧
      st.has_determined_doc_path ∧
      ¬ validate_tag_path spec tag_id (st.tag_stack.map fun p => (p.tag.get_id, p.size, 0)) then
    (st, .error (.corruptedFileData
      (.hierarchyError tag_id (st.tag_stack.getLast?.map fun p => p.tag.get_id))))
  else if st.allowed_errors &&& OVERSIZED_CHILD_ERROR = 0 ∧ size.is_known ∧
      is_invalid_tag_size st (header_len + size.value) then
    (st, .error (.corruptedFileData (.oversizedChildElement st.pos tag_id size.value)))
  else
    (st, .ok (tag_id, spec_tag_type, size, header_len))

/-- The allowance-guarded id check, then the stream-start heuristic, then
the hierarchy / containment checks of `peek_valid_tag_header`. -/
def peek_checks (spec : Spec) (st : TagIteratorState) (tag_id : Nat)
    (spec_tag_type : Option TagDataType) (size : EBMLSize) (header_len : Nat) :
    TagIteratorState × Except TagIteratorError (Nat × Option TagDataType × EBMLSize × Nat) :=
  if st.allowed_errors &&& INVALID_TAG_ID_ERROR = 0 ∧ spec_tag_type.isNone then
    (st, .error (.corruptedFileData (.invalidTagId tag_id st.pos)))
  else
    peek_checks2 spec
      (if st.allowed_errors &&& INVALID_HIERARCHY_ERROR = 0 ∧ spec_tag_type.isSome then
        determine_doc_path spec st tag_id
      else st) tag_id spec_tag_type size header_len

/-- `TagIterator::peek_valid_tag_header`.  Returns the header quadruple and
the state (the stream-start heuristic may have populated the stack).  The
maximum-tag-size cutoff check is `Modelled from the spec:` it fires, with
`InvalidTagSize{position, tag_id, size}`, when a Known declared length
exceeds the configured cap; it is independent of the allowance bits. -/
def peek_valid_tag_header (spec : Spec) (st : TagIteratorState) :
    TagIteratorState × Except TagIteratorError (Nat × Option TagDataType × EBMLSize × Nat) :=
  match peek_tag_id st with
  | (tag_id, id_len) =>
    match read_vint_buffered st.bytes (st.pos + id_len) with
    | .error _ => (st, .error (.corruptedFileData (.invalidTagData tag_id st.pos)))
    | .ok (rawSize, size_len) =>
      if (spec.getTagDataType tag_id = some .unsignedInt ∨
          spec.getTagDataType tag_id = some .integer ∨
          spec.getTagDataType tag_id = some .float) ∧ rawSize > 8 then
        (st, .error (.corruptedFileData (.invalidTagData tag_id st.pos)))
      else
        -- Modelled from the spec: the optional maximum-tag-size cutoff
        match st.max_allowable_tag_size with
        | some cap =>
          if (EBMLSize.new rawSize size_len).is_known ∧
              (EBMLSize.new rawSize size_len).value > cap then
            (st, .error (.corruptedFileData
              (.invalidTagSize st.pos tag_id (EBMLSize.new rawSize size_len).value)))
          else
            peek_checks spec st tag_id (spec.getTagDataType tag_id)
              (EBMLSize.new rawSize size_len) (id_len + size_len)
        | none =>
          peek_checks spec st tag_id (spec.getTagDataType tag_id)
            (EBMLSize.new rawSize size_len) (id_len + size_len)

/-- Outcome of a reader step that mutates the state (`&mut self`): the state
survives errors; `panicked` models a Rust panic (`arr_to_i64` on an empty
payload). -/
inductive ReadOutcome (α : Type) where
  | ok (a : α)
  | err (e : TagIteratorError)
  | panicked
deriving Repr, DecidableEq

/-- `TagIterator::read_valid_tag_header`: peek, then consume the header. -/
def read_valid_tag_header (spec : Spec) (st : TagIteratorState) :
    TagIteratorState × Except TagIteratorError (Nat × Option TagDataType × EBMLSize) :=
  match peek_valid_tag_header spec st with
  | (st', .error e) => (st', .error e)
  | (st', .ok (tag_id, t, size, header_len)) =>
    ({ st' with pos := st'.pos + header_len }, .ok (tag_id, t, size))

/-- UTF-8 validity (`String::from_utf8`), per RFC 3629. -/
def isValidUtf8 : List Nat → Bool
  | [] => true
  | b :: rest =>
    if b < 0x80 then isValidUtf8 rest
    else if 0xC2 ≤ b ∧ b ≤ 0xDF then
      match rest with
      | c1 :: rest' => (decide (0x80 ≤ c1 ∧ c1 ≤ 0xBF)) && isValidUtf8 rest'
      | [] => false
    else if 0xE0 ≤ b ∧ b ≤ 0xEF then
      match rest with
      | c1 :: c2 :: rest' =>
        (decide ((b = 0xE0 ∧ 0xA0 ≤ c1 ∧ c1 ≤ 0xBF) ∨
                 (0xE1 ≤ b ∧ b ≤ 0xEC ∧ 0x80 ≤ c1 ∧ c1 ≤ 0xBF) ∨
                 (b = 0xED ∧ 0x80 ≤ c1 ∧ c1 ≤ 0x9F) ∨
                 (0xEE ≤ b ∧ 0x80 ≤ c1 ∧ c1 ≤ 0xBF))) &&
        (decide (0x80 ≤ c2 ∧ c2 ≤ 0xBF)) && isValidUtf8 rest'
      | _ => false
    else if 0xF0 ≤ b ∧ b ≤ 0xF4 then
      match rest with
      | c1 :: c2 :: c3 :: rest' =>
        (decide ((b = 0xF0 ∧ 0x90 ≤ c1 ∧ c1 ≤ 0xBF) ∨
                 (0xF1 ≤ b ∧ b ≤ 0xF3 ∧ 0x80 ≤ c1 ∧ c1 ≤ 0xBF) ∨
                 (b = 0xF4 ∧ 0x80 ≤ c1 ∧ c1 ≤ 0x8F))) &&
        (decide (0x80 ≤ c2 ∧ c2 ≤ 0xBF)) && (decide (0x80 ≤ c3 ∧ c3 ≤ 0xBF)) &&
        isValidUtf8 rest'
      | _ => false
    else false

/-- Bit-level widening of an IEEE-754 single to a double (`f32 as f64`):
sign copied, exponent re-biased, mantissa left-aligned; subnormal singles
are renormalized (all are exactly representable); NaN payloads shift left as
on the mainstream targets. -/
def f32_bits_to_f64_bits (b : Nat) : Nat :=
  let s := b / 2 ^ 31 % 2
  let e := b / 2 ^ 23 % 2 ^ 8
  let m := b % 2 ^ 23
  if e = 255 then s * 2 ^ 63 + 2047 * 2 ^ 52 + m * 2 ^ 29
  else if e = 0 then
    if m = 0 then s * 2 ^ 63
    else
      let t := Nat.log2 m
      s * 2 ^ 63 + (t + 874) * 2 ^ 52 + (m - 2 ^ t) * 2 ^ (52 - t)
  else s * 2 ^ 63 + (e + 896) * 2 ^ 52 + m * 2 ^ 29

/-- `tools.rs` `arr_to_f64`, on 64-bit patterns. -/
def arr_to_f64 (arr : List Nat) : Except ToolError Nat :=
  if arr.length = 4 then .ok (f32_bits_to_f64_bits (arr.foldl (fun a b => a * 256 + b) 0))
  else if arr.length = 8 then .ok (arr.foldl (fun a b => a * 256 + b) 0)
  else .error (.readF64Mismatch arr)

/-- `TagIterator::read_tag_data` as `read_tag` invokes it: no payload for a
master, the declared bytes for a Known size (EOF if the stream is shorter),
`InvalidTagData` for an Unknown-sized non-master. -/
def read_tag_payload (st1 : TagIteratorState) (tag_start tag_id : Nat)
    (spec_tag_type : Option TagDataType) (size : EBMLSize) :
    TagIteratorState × ReadOutcome (List Nat) :=
  if spec_tag_type = some .master then (st1, .ok [])
  else match size with
    | .known s =>
      if st1.pos + s ≤ st1.bytes.length then
        ({ st1 with pos := st1.pos + s }, .ok ((st1.bytes.drop st1.pos).take s))
      else
        (st1, .err (.unexpectedEOF tag_start (some tag_id) (some s)
          (some (st1.bytes.drop st1.pos))))
    | .unknown => (st1, .err (.corruptedFileData (.invalidTagData tag_id tag_start)))

/-- The typed-constructor tail of `read_tag` (its `match spec_tag_type`
over the raw payload). -/
def make_tag (st2 : TagIteratorState) (tag_id : Nat) (spec_tag_type : Option TagDataType)
    (size : EBMLSize) (tag_start data_start : Nat) (raw_data : List Nat) :
    TagIteratorState × ReadOutcome ProcessingTag :=
  match spec_tag_type with
  | some .master => (st2, .ok ⟨.master tag_id .start, size, tag_start, data_start⟩)
  | some .unsignedInt =>
    match arr_to_u64 raw_data with
    | .ok val => (st2, .ok ⟨.uint tag_id val, size, tag_start, data_start⟩)
    | .err e => (st2, .err (.corruptedTagData tag_id e))
    | .panicked => (st2, .panicked)
  | some .integer =>
    match arr_to_i64 raw_data with
    | .ok val => (st2, .ok ⟨.sint tag_id val, size, tag_start, data_start⟩)
    | .err e => (st2, .err (.corruptedTagData tag_id e))
    | .panicked => (st2, .panicked)
  | some .utf8 =>
    if isValidUtf8 raw_data then
      (st2, .ok ⟨.utf8 tag_id raw_data, size, tag_start, data_start⟩)
    else
      (st2, .err (.corruptedTagData tag_id (.fromUtf8Error raw_data)))
  | some .binary => (st2, .ok ⟨.binary tag_id raw_data, size, tag_start, data_start⟩)
  | some .float =>
    match arr_to_f64 raw_data with
    | .ok bits => (st2, .ok ⟨.float tag_id bits, size, tag_start, data_start⟩)
    | .error e => (st2, .err (.corruptedTagData tag_id e))
  | none => (st2, .ok ⟨.raw tag_id raw_data, size, tag_start, data_start⟩)

/-- `TagIterator::read_tag`: header, then payload, then the typed
constructor (`tag_start` is the offset before the header, `data_start` the
one after it). -/
def read_tag (spec : Spec) (st : TagIteratorState) :
    TagIteratorState × ReadOutcome ProcessingTag :=
  match read_valid_tag_header spec st with
  | (st1, .error e) => (st1, .err e)
  | (st1, .ok (tag_id, spec_tag_type, size)) =>
    match read_tag_payload st1 st.pos tag_id spec_tag_type size with
    | (st2, .err e) => (st2, .err e)
    | (st2, .panicked) => (st2, .panicked)
    | (st2, .ok raw_data) =>
      make_tag st2 tag_id spec_tag_type size st.pos st1.pos raw_data

/-- `TagIterator::read_tag_checked`: `None` once the stream is exhausted. -/
def read_tag_checked (spec : Spec) (st : TagIteratorState) :
    Option (TagIteratorState × ReadOutcome ProcessingTag) :=
  if st.bytes.length ≤ st.pos then none
  else some (read_tag spec st)

/-- Result of a fuel-driven reader step: `panicked` models a Rust panic,
`outOfFuel` means the modelling fuel ran out (the Rust loops simply keep
going; every theorem quantifies over sufficient fuel). -/
inductive PRes (α : Type) where
  | ok (a : α)
  | panicked
  | outOfFuel
deriving Repr, DecidableEq

/-- First emission of a known-size master whose declared end has been
reached: `read_next`'s opening drain (deepest-first via `.rev()`). -/
def close_known_ended (st : TagIteratorState) : TagIteratorState :=
  match st.tag_stack.findIdx? (fun t => t.size.is_known && decide (t.data_start + t.size.value ≤ st.pos)) with
  | some index =>
    { st with
      emission_queue := st.emission_queue ++
        ((st.tag_stack.drop index).map fun t => Except.ok (t.tag, t.tag_start)).reverse,
      tag_stack := st.tag_stack.take index }
  | none => st

/-- The `while matches!(tag_stack.last(), Unknown) && is_ended_by` loop of
`read_next`: pop and emit unknown-size masters ended by the incoming id.
Structured with the stack length as (sufficient) fuel. -/
def pop_ended_unknown (spec : Spec) (nextId : Nat) (st : TagIteratorState) : TagIteratorState :=
  go st.tag_stack.length st
where
  go : Nat → TagIteratorState → TagIteratorState
  | 0, st => st
  | n + 1, st =>
    match st.tag_stack.getLast? with
    | some open_tag =>
      if open_tag.size = .unknown ∧ ProcessingTag.is_ended_by spec open_tag nextId then
        go n { st with tag_stack := st.tag_stack.dropLast,
                       emission_queue := st.emission_queue ++ [.ok (open_tag.tag, open_tag.tag_start)] }
      else st
    | none => st

/-- The `take_while` in `roll_up_children`: children before the matching
`Master::End` (which is consumed and dropped), and what follows it. -/
def span_until_end (childId : Nat) : List Tag → List Tag × List Tag
  | [] => ([], [])
  | c :: rest =>
    if (match c with | .master i .end_ => decide (i = childId) | _ => false) then ([], rest)
    else
      let (a, b) := span_until_end childId rest
      (c :: a, b)

theorem span_until_end_len (childId : Nat) :
    ∀ l : List Tag, (span_until_end childId l).1.length + (span_until_end childId l).2.length ≤ l.length := by
  intro l
  induction l with
  | nil => simp [span_until_end]
  | cons c rest ih =>
    simp only [span_until_end]
    split
    · simp
    · simp only []
      simp only [List.length_cons]
      omega

theorem span_fst_len_lt (childId : Nat) (l : List Tag) :
    (span_until_end childId l).1.length < l.length + 1 := by
  have h := span_until_end_len childId l
  omega

theorem span_snd_len_lt (childId : Nat) (l : List Tag) :
    (span_until_end childId l).2.length < l.length + 1 := by
  have h := span_until_end_len childId l
  omega

mutual
/-- `TagIterator::roll_up_children`. -/
def roll_up_children (tagId : Nat) (children : List Tag) : Tag :=
  .master tagId (.full (roll_go children))
termination_by (children.length, 1)

/-- The iteration inside `roll_up_children`: a `Start` swallows everything up
to its matching `End` (`span_until_end`) into a recursive roll-up;
primitives pass through. -/
def roll_go : List Tag → List Tag
  | [] => []
  | c :: rest =>
    match c with
    | .master childId .start =>
      roll_up_children childId (span_until_end childId rest).1
        :: roll_go (span_until_end childId rest).2
    | t => t :: roll_go rest
termination_by l => (l.length, 0)
decreasing_by
  all_goals first
    | decreasing_tactic
    | (simp_wf
       exact Prod.Lex.left _ _ (span_fst_len_lt _ _))
    | (simp_wf
       exact Prod.Lex.left _ _ (span_snd_len_lt _ _))
end

/-- The inner scan of `buffer_master`'s `'endTagSearch` loop: advance
`position` until an `Err` item or the matching `Master::End`, or the queue
end. -/
def scan_queue (tagId : Nat) (queue : List (Except TagIteratorError (Tag × Nat))) :
    Nat → Nat
  | position =>
    match hget : queue.get? position with
    | none => position
    | some item =>
      match item with
      | .error _ => position
      | .ok (t, _) =>
        if decide (t.get_id = tagId) &&
            (match t with | .master _ .end_ => true | _ => false) then
          position
        else
          scan_queue tagId queue (position + 1)
termination_by position => queue.length - position
decreasing_by
  simp_wf
  have hlt : position < queue.length := by
    by_contra hge
    rw [List.get?_eq_none.mpr (by omega)] at hget
    exact absurd hget (by simp)
  omega

/-- The tail of `buffer_master` once the end position is found: split the
queue, roll the buffered children up into a `Full` tag (or, at an error
item, drop the buffered children and keep just the error). -/
def buffer_finish (tagId tag_start pre : Nat) (st : TagIteratorState) (position : Nat) :
    PRes TagIteratorState :=
  let children := st.emission_queue.drop pre
  let kept := st.emission_queue.take pre
  let split_to := position - pre
  match children.get? split_to with
  | some (.ok _) =>
    let remaining := (children.drop split_to).drop 1
    let childTags := (children.take split_to).map fun c =>
      match c with
      | .ok (t, _) => some t
      | .error _ => none
    if childTags.all (·.isSome) then
      let full_tag := roll_up_children tagId (childTags.filterMap id)
      .ok { st with emission_queue := kept ++ [.ok (full_tag, tag_start)] ++ remaining }
    else
      -- `c.unwrap()` on an `Err` item: unreachable, the scan stops at errors
      .panicked
  | _ =>
    .ok { st with emission_queue := kept ++ (children.drop split_to).take 1 }

/-- The control modes of the reader's driving loop: a plain `read_next`
call, or one round of `buffer_master`'s `'endTagSearch` loop (carrying the
loop locals `tag_id`, `tag_start`, `pre_queue_len` and `position`). -/
inductive ReaderMode where
  | readNext
  | bufferGo (tagId tag_start pre position : Nat)

/-- `TagIterator::read_next` and `buffer_master` as one fuel-indexed step
function (structural on fuel, so concrete runs evaluate in the kernel).
`readNext`: close any Known-size masters whose declared end has been
reached, read the next tag, close Unknown-size masters it ends, push a
`Master::End` sentinel for a `Master::Start` (entering the buffering loop
instead of emitting when its id is in the buffer set), and at EOF drain the
remaining stack newest-first (`while let Some(tag) = self.tag_stack.pop()`).
`bufferGo`: refill the queue via `readNext` when `position` passes its end
(an empty refill emits `UnexpectedEOF`), scan from `position` for the
matching `Master::End` or an error item, then roll up (`buffer_finish`) or
keep looping. -/
def reader_loop (spec : Spec) : Nat → ReaderMode → TagIteratorState → PRes TagIteratorState
  | 0, _, _ => .outOfFuel
  | fuel + 1, .readNext, st0 =>
    let st := close_known_ended st0
    match read_tag_checked spec st with
    | none =>
      .ok { st with
        emission_queue := st.emission_queue ++
          (st.tag_stack.reverse.map fun t => Except.ok (t.tag, t.tag_start)),
        tag_stack := [] }
    | some (_, .panicked) => .panicked
    | some (st1, .err e) =>
      .ok { st1 with emission_queue := st1.emission_queue ++ [.error e] }
    | some (st1, .ok next_tag) =>
      let st2 := pop_ended_unknown spec next_tag.tag.get_id st1
      match next_tag.tag with
      | .master tag_id .start =>
        let st3 := { st2 with tag_stack := st2.tag_stack ++
          [({ tag := .master tag_id .end_, size := next_tag.size,
              tag_start := next_tag.tag_start,
              data_start := next_tag.data_start } : ProcessingTag)] }
        if st3.tag_ids_to_buffer.contains tag_id then
          reader_loop spec fuel
            (.bufferGo tag_id st3.pos st3.emission_queue.length st3.emission_queue.length) st3
        else
          .ok { st3 with emission_queue :=
            st3.emission_queue ++ [.ok (next_tag.tag, next_tag.tag_start)] }
      | _ =>
        .ok { st2 with emission_queue :=
          st2.emission_queue ++ [.ok (next_tag.tag, next_tag.tag_start)] }
  | fuel + 1, .bufferGo tagId tag_start pre position, st =>
    if st.emission_queue.length ≤ position then
      match reader_loop spec fuel .readNext st with
      | .panicked => .panicked
      | .outOfFuel => .outOfFuel
      | .ok st1 =>
        if st1.emission_queue.length ≤ position then
          .ok { st1 with emission_queue := st1.emission_queue ++
            [.error (.unexpectedEOF tag_start (some tagId) none none)] }
        else
          let p1 := scan_queue tagId st1.emission_queue position
          if p1 < st1.emission_queue.length then
            buffer_finish tagId tag_start pre st1 p1
          else
            reader_loop spec fuel (.bufferGo tagId tag_start pre p1) st1
    else
      let p1 := scan_queue tagId st.emission_queue position
      if p1 < st.emission_queue.length then
        buffer_finish tagId tag_start pre st p1
      else
        reader_loop spec fuel (.bufferGo tagId tag_start pre p1) st

/-- `TagIterator::read_next`. -/
def read_next (spec : Spec) (fuel : Nat) (st : TagIteratorState) : PRes TagIteratorState :=
  reader_loop spec fuel .readNext st

/-- `TagIterator::buffer_master` (entered from `read_next` with the freshly
pushed sentinel on the stack). -/
def buffer_master (spec : Spec) (fuel : Nat) (st : TagIteratorState) (tagId : Nat) :
    PRes TagIteratorState :=
  reader_loop spec fuel (.bufferGo tagId st.pos st.emission_queue.length st.emission_queue.length) st

/-- `Iterator::next` for `TagIterator`: refill the queue if empty, then pop
the front item, recording the offset of an `Ok` emission. -/
def next_item (spec : Spec) (fuel : Nat) (st : TagIteratorState) :
    PRes (Option (Except TagIteratorError Tag) × TagIteratorState) :=
  let step : PRes TagIteratorState :=
    if st.emission_queue.isEmpty then read_next spec fuel st else .ok st
  match step with
  | .ok stp =>
    match stp.emission_queue with
    | [] => .ok (none, stp)
    | item :: rest =>
      let st' := { stp with
        emission_queue := rest,
        last_emitted_tag_offset := match item with
          | .ok (_, off) => off
          | .error _ => stp.last_emitted_tag_offset }
      .ok (some (item.map Prod.fst), st')
  | .panicked => .panicked
  | .outOfFuel => .outOfFuel

/-- Collect the whole iteration (a `for` over the `TagIterator`). -/
def run (spec : Spec) : Nat → TagIteratorState → PRes (List (Except TagIteratorError Tag))
  | 0, _ => .outOfFuel
  | fuel + 1, st =>
    match next_item spec fuel st with
    | .ok (none, _) => .ok []
    | .ok (some item, st') =>
      match run spec fuel st' with
      | .ok items => .ok (item :: items)
      | .panicked => .panicked
      | .outOfFuel => .outOfFuel
    | .panicked => .panicked
    | .outOfFuel => .outOfFuel

/-! Comparison-friendly views of emitted events (the mutual `Tag` type has
no decidable equality, so concrete runs are compared through projections). -/

/-- A tag's id and constructor phase: 0 = `Master::Start`, 1 = `Master::End`,
2 = `Master::Full`, 3 = non-master. -/
def tagView (t : Tag) : Nat × Nat :=
  match t with
  | .master i .start => (i, 0)
  | .master i .end_ => (i, 1)
  | .master i (.full _) => (i, 2)
  | t => (t.get_id, 3)

/-- View of one emitted item (`none` for an error item). -/
def eventView : Except TagIteratorError Tag → Option (Nat × Nat)
  | .ok t => some (tagView t)
  | .error _ => none

/-- View of a whole successful run. -/
def runView (spec : Spec) (fuel : Nat) (st : TagIteratorState) :
    Option (List (Option (Nat × Nat))) :=
  match run spec fuel st with
  | .ok items => some (items.map eventView)
  | _ => none

/-- View of the open-tag stack after a successful reader step. -/
def stackView (r : PRes TagIteratorState) : Option (List (Nat × Nat)) :=
  match r with
  | .ok st => some (st.tag_stack.map fun p => tagView p.tag)
  | _ => none

/-- Counterexample to C4 as stated: on the stream `81 FF 4103 FF` (master
`Root` 0x81 of unknown size containing master `Parent` 0x4103 of unknown
size, then EOF), the iterator emits the two `Master::End` events
newest-first — `Parent` (0x4103, opened last) before `Root` (0x81, opened
first) — because the EOF drain pops the stack (`while let Some(tag) =
self.tag_stack.pop()`), not oldest-first as claimed. -/
theorem eof_drain_emits_newest_first :
    runView testSpec 10 (TagIteratorState.new [0x81, 0xFF, 0x41, 0x03, 0xFF] [])
      = some [some (129, 0), some (16643, 0), some (16643, 1), some (129, 1)] := by
  decide

/-- C4 (amended): when the stream is exhausted (after the declared-end
drain), `read_next` emits one `Master::End` event for every entry still on
the open-tag stack, *newest-first* (the innermost, most recently opened
master first), and empties the stack. -/
theorem read_next_eof_drains_newest_first (spec : Spec) (fuel : Nat)
    (st0 : TagIteratorState)
    (h : read_tag_checked spec (close_known_ended st0) = none) :
    read_next spec (fuel + 1) st0 = .ok { close_known_ended st0 with
      emission_queue := (close_known_ended st0).emission_queue ++
        ((close_known_ended st0).tag_stack.reverse.map fun t =>
          Except.ok (t.tag, t.tag_start)),
      tag_stack := [] } := by
  simp only [read_next, reader_loop, h]

/-- A state at EOF with two unknown-size masters still open (outermost
`Root` 0x81 below, innermost `Parent` 0x4103 on top). -/
def eofDrainState : TagIteratorState :=
  { TagIteratorState.new [] [] with
    tag_stack := [⟨.master 129 .end_, .unknown, 0, 0⟩,
                  ⟨.master 16643 .end_, .unknown, 2, 4⟩] }

/-- Witness for the amended C4 at a concrete EOF state. -/
theorem read_next_eof_drains_newest_first_witness :
    read_tag_checked testSpec (close_known_ended eofDrainState) = none ∧
    read_next testSpec 1 eofDrainState = .ok { close_known_ended eofDrainState with
      emission_queue := (close_known_ended eofDrainState).emission_queue ++
        ((close_known_ended eofDrainState).tag_stack.reverse.map fun t =>
          Except.ok (t.tag, t.tag_start)),
      tag_stack := [] } :=
  ⟨rfl, read_next_eof_drains_newest_first testSpec 0 eofDrainState rfl⟩

/-! The open-stack sentinel invariant (C8). -/

/-- A well-formed open-stack entry: the `Master::End` sentinel pushed by
`read_next` for an ordinarily opened master, or a `Master::Start` heuristic
entry of Unknown size synthesized by the stream-start heuristic. -/
def good_entry (p : ProcessingTag) : Prop :=
  (∃ id, p.tag = .master id .end_) ∨
  ((∃ id, p.tag = .master id .start) ∧ p.size = .unknown)

/-- Every entry of the open-tag stack is well formed. -/
def good_stack (st : TagIteratorState) : Prop :=
  ∀ p ∈ st.tag_stack, good_entry p

/-- The invariant transported through a reader step's result. -/
def PRes.stackGood : PRes TagIteratorState → Prop
  | .ok st => good_stack st
  | _ => True

theorem determine_stack_mem (spec : Spec) (st : TagIteratorState) (tagId : Nat) :
    ∀ p ∈ (determine_doc_path spec st tagId).tag_stack, p ∈ st.tag_stack ∨ good_entry p := by
  intro p hp
  unfold determine_doc_path at hp
  split at hp
  · exact Or.inl hp
  · split at hp
    · simp only [List.mem_map] at hp
      obtain ⟨q, -, rfl⟩ := hp
      refine Or.inr ?_
      cases q with
      | id i => exact Or.inr ⟨⟨i, rfl⟩, rfl⟩
      | global g => exact Or.inr ⟨⟨0, rfl⟩, rfl⟩
    · exact Or.inl hp

theorem peek_checks2_fst (spec : Spec) (st : TagIteratorState) (tag_id : Nat)
    (t : Option TagDataType) (size : EBMLSize) (hl : Nat) :
    (peek_checks2 spec st tag_id t size hl).1 = st := by
  unfold peek_checks2
  split
  · rfl
  · split <;> rfl

theorem peek_checks_fst (spec : Spec) (st : TagIteratorState) (tag_id : Nat)
    (t : Option TagDataType) (size : EBMLSize) (hl : Nat) :
    (peek_checks spec st tag_id t size hl).1 = st ∨
    (peek_checks spec st tag_id t size hl).1 = determine_doc_path spec st tag_id := by
  unfold peek_checks
  split
  · exact Or.inl rfl
  · rw [peek_checks2_fst]
    split
    · exact Or.inr rfl
    · exact Or.inl rfl

theorem peek_fst (spec : Spec) (st : TagIteratorState) :
    (peek_valid_tag_header spec st).1 = st ∨
    ∃ id, (peek_valid_tag_header spec st).1 = determine_doc_path spec st id := by
  unfold peek_valid_tag_header
  repeat' split
  all_goals
    first
      | exact Or.inl rfl
      | (cases peek_checks_fst spec st _ _ _ _ with
         | inl h => exact Or.inl h
         | inr h => exact Or.inr ⟨_, h⟩)

theorem read_tag_payload_stack (st1 : TagIteratorState) (tag_start tag_id : Nat)
    (t : Option TagDataType) (size : EBMLSize) :
    (read_tag_payload st1 tag_start tag_id t size).1.tag_stack = st1.tag_stack := by
  unfold read_tag_payload
  repeat' split
  all_goals rfl

theorem make_tag_fst (st2 : TagIteratorState) (tag_id : Nat)
    (t : Option TagDataType) (size : EBMLSize) (tag_start data_start : Nat)
    (raw_data : List Nat) :
    (make_tag st2 tag_id t size tag_start data_start raw_data).1 = st2 := by
  unfold make_tag
  repeat' split
  all_goals rfl

theorem read_tag_fst_stack (spec : Spec) (st : TagIteratorState) :
    (read_tag spec st).1.tag_stack = (peek_valid_tag_header spec st).1.tag_stack := by
  unfold read_tag read_valid_tag_header
  rcases hpk : peek_valid_tag_header spec st with ⟨st1, r⟩
  simp only [hpk]
  cases r with
  | error e => rfl
  | ok v =>
    obtain ⟨tag_id, t, size, hl⟩ := v
    rcases hpl : read_tag_payload { st1 with pos := st1.pos + hl } st.pos tag_id t size
      with ⟨st2, rr⟩
    have hs2 : st2.tag_stack = st1.tag_stack := by
      have h := read_tag_payload_stack { st1 with pos := st1.pos + hl } st.pos tag_id t size
      rw [hpl] at h
      exact h
    simp only [hpl]
    cases rr with
    | err e => exact hs2
    | panicked => exact hs2
    | ok raw_data =>
      show (make_tag st2 tag_id t size st.pos
        ({ st1 with pos := st1.pos + hl } : TagIteratorState).pos raw_data).1.tag_stack
          = st1.tag_stack
      rw [make_tag_fst]
      exact hs2

theorem read_tag_checked_stack (spec : Spec) (st st' : TagIteratorState)
    (r : ReadOutcome ProcessingTag)
    (h : read_tag_checked spec st = some (st', r)) :
    st'.tag_stack = (peek_valid_tag_header spec st).1.tag_stack := by
  unfold read_tag_checked at h
  split at h
  · exact absurd h (by simp)
  · have h2 : read_tag spec st = (st', r) := Option.some.inj h
    have h3 : (read_tag spec st).1 = st' := by rw [h2]
    rw [← h3]
    exact read_tag_fst_stack spec st

theorem good_stack_close (st : TagIteratorState) (h : good_stack st) :
    good_stack (close_known_ended st) := by
  intro p hp
  unfold close_known_ended at hp
  split at hp
  · exact h p (List.take_subset _ _ hp)
  · exact h p hp

theorem pop_go_stack_sub (spec : Spec) (nextId : Nat) :
    ∀ n st, ∀ p ∈ (pop_ended_unknown.go spec nextId n st).tag_stack, p ∈ st.tag_stack := by
  intro n
  induction n with
  | zero => intro st p hp; exact hp
  | succ n ih =>
    intro st p hp
    unfold pop_ended_unknown.go at hp
    split at hp
    · split at hp
      · exact (List.dropLast_sublist _).subset (ih _ p hp)
      · exact hp
    · exact hp

theorem good_stack_pop (spec : Spec) (nextId : Nat) (st : TagIteratorState)
    (h : good_stack st) : good_stack (pop_ended_unknown spec nextId st) := by
  intro p hp
  exact h p (pop_go_stack_sub spec nextId st.tag_stack.length st p hp)

theorem good_stack_read_checked (spec : Spec) (st st' : TagIteratorState)
    (r : ReadOutcome ProcessingTag) (h : good_stack st)
    (he : read_tag_checked spec st = some (st', r)) : good_stack st' := by
  intro p hp
  rw [read_tag_checked_stack spec st st' r he] at hp
  rcases peek_fst spec st with hq | ⟨id, hq⟩
  · rw [hq] at hp
    exact h p hp
  · rw [hq] at hp
    rcases determine_stack_mem spec st id p hp with hin | hg
    · exact h p hin
    · exact hg

theorem buffer_finish_good (tagId ts pre : Nat) (st : TagIteratorState) (position : Nat)
    (h : good_stack st) :
    PRes.stackGood (buffer_finish tagId ts pre st position) := by
  simp only [buffer_finish]
  split
  · split
    · exact fun p hp => h p hp
    · trivial
  · exact fun p hp => h p hp

/-- Counterexample to C8 as stated: on the stream `83 81 01` (a `TrackType`
element not at the document root), the stream-start heuristic synthesizes
the missing `Segment` ancestor as a `Master::Start` sentinel — not a
`Master::End` one — so after the first `read_next` the open stack holds a
Start entry (phase 0), and the EOF drain then emits that `Master::Start` as
a spurious trailing event. -/
theorem heuristic_pushes_start_sentinel :
    stackView (read_next testSpec 5 (TagIteratorState.new [0x83, 0x81, 0x01] []))
      = some [(408125543, 0)] ∧
    runView testSpec 10 (TagIteratorState.new [0x83, 0x81, 0x01] [])
      = some [some (131, 3), some (408125543, 0)] := by
  decide

/-- C8 (amended): every `ProcessingTag` on the open-master stack holds a
master *sentinel* for its id — the `Master::End` value pushed by `read_next`
when a master opens, or a `Master::Start` value of Unknown size synthesized
by the stream-start heuristic — and this invariant is preserved by the
reader's driving loop (`read_next` and `buffer_master`, in every mode) at
any fuel. -/
theorem reader_loop_preserves_stack (spec : Spec) :
    ∀ fuel mode st, good_stack st → PRes.stackGood (reader_loop spec fuel mode st) := by
  intro fuel
  induction fuel with
  | zero => intro mode st _; trivial
  | succ fuel ih =>
    intro mode st h
    cases mode with
    | readNext =>
      have hclose : good_stack (close_known_ended st) := good_stack_close st h
      simp only [reader_loop]
      split
      · intro p hp
        exact absurd hp (List.not_mem_nil p)
      · trivial
      · rename_i st1 e heq
        have h1 : good_stack st1 := good_stack_read_checked spec _ st1 _ hclose heq
        exact fun p hp => h1 p hp
      · rename_i st1 next_tag heq
        have h1 : good_stack st1 := good_stack_read_checked spec _ st1 _ hclose heq
        have h2 : ∀ (nid : Nat), good_stack (pop_ended_unknown spec nid st1) :=
          fun nid => good_stack_pop spec nid st1 h1
        have h3 : ∀ (nid : Nat) (entry : ProcessingTag), good_entry entry →
            ∀ p, p ∈ (pop_ended_unknown spec nid st1).tag_stack ++ [entry] →
              good_entry p := by
          intro nid entry he p hp
          rcases List.mem_append.mp hp with hin | hin
          · exact h2 nid p hin
          · rw [List.mem_singleton] at hin
            subst hin
            exact he
        split
        · rename_i tag_id heq2
          split
          · exact ih _ _ (fun p hp => h3 _ _ (Or.inl ⟨tag_id, rfl⟩) p hp)
          · exact fun p hp => h3 _ _ (Or.inl ⟨tag_id, rfl⟩) p hp
        · exact fun p hp => h2 _ p hp
    | bufferGo tagId ts pre position =>
      simp only [reader_loop]
      split
      · have hr := ih .readNext st h
        split
        · trivial
        · trivial
        · rename_i st1 heq
          rw [heq] at hr
          split
          · exact fun p hp => hr p hp
          · split
            · exact buffer_finish_good _ _ _ _ _ (fun p hp => hr p hp)
            · exact ih _ _ (fun p hp => hr p hp)
      · split
        · exact buffer_finish_good _ _ _ _ _ h
        · exact ih _ _ h

/-- Witness for the amended C8: a fresh iterator state (empty stack) over
the `83 81 01` stream, stepped once. -/
theorem reader_loop_preserves_stack_witness :
    good_stack (TagIteratorState.new [0x83, 0x81, 0x01] []) ∧
    PRes.stackGood (reader_loop testSpec 5 .readNext (TagIteratorState.new [0x83, 0x81, 0x01] [])) :=
  ⟨fun p hp => absurd hp (List.not_mem_nil p),
   reader_loop_preserves_stack testSpec 5 .readNext (TagIteratorState.new [0x83, 0x81, 0x01] [])
     (fun p hp => absurd hp (List.not_mem_nil p))⟩

/-! The maximum-tag-size cutoff (C9). -/

/-- An error that is not `InvalidTagSize`. -/
def clean_err : TagIteratorError → Prop
  | .corruptedFileData (.invalidTagSize _ _ _) => False
  | _ => True

/-- A queued emission item free of `InvalidTagSize`. -/
def clean_item : Except TagIteratorError (Tag × Nat) → Prop
  | .error e => clean_err e
  | .ok _ => True

/-- An emitted item free of `InvalidTagSize`. -/
def clean_out : Except TagIteratorError Tag → Prop
  | .error e => clean_err e
  | .ok _ => True

/-- No cutoff configured, and no `InvalidTagSize` already queued. -/
def clean_state (st : TagIteratorState) : Prop :=
  st.max_allowable_tag_size = none ∧ ∀ e ∈ st.emission_queue, clean_item e

/-- Cleanliness transported through a reader step's result. -/
def PRes.clean : PRes TagIteratorState → Prop
  | .ok st => clean_state st
  | _ => True

theorem clean_out_map (i : Except TagIteratorError (Tag × Nat)) (h : clean_item i) :
    clean_out (i.map Prod.fst) := by
  cases i with
  | ok v => trivial
  | error e => exact h

theorem determine_preserves (spec : Spec) (st : TagIteratorState) (tagId : Nat) :
    (determine_doc_path spec st tagId).max_allowable_tag_size = st.max_allowable_tag_size ∧
    (determine_doc_path spec st tagId).emission_queue = st.emission_queue := by
  unfold determine_doc_path
  split
  · exact ⟨rfl, rfl⟩
  · split
    · exact ⟨rfl, rfl⟩
    · exact ⟨rfl, rfl⟩

theorem peek_preserves (spec : Spec) (st : TagIteratorState) :
    (peek_valid_tag_header spec st).1.max_allowable_tag_size = st.max_allowable_tag_size ∧
    (peek_valid_tag_header spec st).1.emission_queue = st.emission_queue := by
  rcases peek_fst spec st with h | ⟨id, h⟩
  · rw [h]
    exact ⟨rfl, rfl⟩
  · rw [h]
    exact determine_preserves spec st id

theorem peek_checks2_err_clean (spec : Spec) (stX : TagIteratorState) (tag_id : Nat)
    (t : Option TagDataType) (size : EBMLSize) (hl : Nat) :
    ∀ st' e, peek_checks2 spec stX tag_id t size hl = (st', .error e) → clean_err e := by
  intro st' e h
  unfold peek_checks2 at h
  split at h
  · injection h with hA hB
    injection hB with hC
    subst hC
    trivial
  · split at h
    · injection h with hA hB
      injection hB with hC
      subst hC
      trivial
    · injection h with hA hB
      exact Except.noConfusion hB

theorem peek_checks_err_clean (spec : Spec) (st : TagIteratorState) (tag_id : Nat)
    (t : Option TagDataType) (size : EBMLSize) (hl : Nat) :
    ∀ st' e, peek_checks spec st tag_id t size hl = (st', .error e) → clean_err e := by
  intro st' e h
  unfold peek_checks at h
  split at h
  · injection h with hA hB
    injection hB with hC
    subst hC
    trivial
  · exact peek_checks2_err_clean spec _ tag_id t size hl st' e h

theorem peek_err_clean (spec : Spec) (st : TagIteratorState)
    (hmax : st.max_allowable_tag_size = none) :
    ∀ st' e, peek_valid_tag_header spec st = (st', .error e) → clean_err e := by
  intro st' e h
  unfold peek_valid_tag_header at h
  split at h
  split at h
  · injection h with hA hB
    injection hB with hC
    subst hC
    trivial
  · split at h
    · injection h with hA hB
      injection hB with hC
      subst hC
      trivial
    · split at h
      · rename_i cap hcap
        rw [hmax] at hcap
        exact Option.noConfusion hcap
      · exact peek_checks_err_clean spec st _ _ _ _ st' e h
  
theorem read_tag_payload_err_clean (st1 : TagIteratorState) (ts tid : Nat)
    (t : Option TagDataType) (size : EBMLSize) :
    ∀ st2 e, read_tag_payload st1 ts tid t size = (st2, .err e) → clean_err e := by
  intro st2 e h
  unfold read_tag_payload at h
  split at h
  · injection h with hA hB
    exact ReadOutcome.noConfusion hB
  · split at h
    · split at h
      · injection h with hA hB
        exact ReadOutcome.noConfusion hB
      · injection h with hA hB
        injection hB with hC
        subst hC
        trivial
    · injection h with hA hB
      injection hB with hC
      subst hC
      trivial

theorem make_tag_err_clean (st2 : TagIteratorState) (tid : Nat) (t : Option TagDataType)
    (size : EBMLSize) (a b : Nat) (raw : List Nat) :
    ∀ st3 e, make_tag st2 tid t size a b raw = (st3, .err e) → clean_err e := by
  intro st3 e h
  unfold make_tag at h
  repeat' split at h
  all_goals injection h with hA hB
  all_goals
    first
      | exact ReadOutcome.noConfusion hB
      | (injection hB with hC
         subst hC
         trivial)

theorem read_tag_payload_preserves (st1 : TagIteratorState) (ts tid : Nat)
    (t : Option TagDataType) (size : EBMLSize) :
    (read_tag_payload st1 ts tid t size).1.max_allowable_tag_size
        = st1.max_allowable_tag_size ∧
    (read_tag_payload st1 ts tid t size).1.emission_queue = st1.emission_queue := by
  unfold read_tag_payload
  repeat' split
  all_goals exact ⟨rfl, rfl⟩

theorem read_tag_preserves (spec : Spec) (st : TagIteratorState) :
    (read_tag spec st).1.max_allowable_tag_size = st.max_allowable_tag_size ∧
    (read_tag spec st).1.emission_queue = st.emission_queue := by
  have hpeek := peek_preserves spec st
  unfold read_tag read_valid_tag_header
  rcases hpk : peek_valid_tag_header spec st with ⟨st1, r⟩
  rw [hpk] at hpeek
  cases r with
  | error e => exact hpeek
  | ok v =>
    obtain ⟨tag_id, t, size, hl⟩ := v
    dsimp only
    have hpl0 := read_tag_payload_preserves { st1 with pos := st1.pos + hl } st.pos tag_id t size
    rcases hpl : read_tag_payload { st1 with pos := st1.pos + hl } st.pos tag_id t size
      with ⟨st2, rr⟩
    rw [hpl] at hpl0
    cases rr with
    | err e => exact ⟨hpl0.1.trans hpeek.1, hpl0.2.trans hpeek.2⟩
    | panicked => exact ⟨hpl0.1.trans hpeek.1, hpl0.2.trans hpeek.2⟩
    | ok raw_data =>
      dsimp only
      rw [make_tag_fst]
      exact ⟨hpl0.1.trans hpeek.1, hpl0.2.trans hpeek.2⟩

theorem read_tag_err_clean (spec : Spec) (st : TagIteratorState)
    (hmax : st.max_allowable_tag_size = none) :
    ∀ st' e, read_tag spec st = (st', .err e) → clean_err e := by
  intro st' e h
  unfold read_tag read_valid_tag_header at h
  rcases hpk : peek_valid_tag_header spec st with ⟨st1, r⟩
  simp only [hpk] at h
  cases r with
  | error e2 =>
    have h2 : ((st1, ReadOutcome.err e2) : TagIteratorState × ReadOutcome ProcessingTag)
        = (st', .err e) := h
    injection h2 with hA hB
    injection hB with hC
    subst hC
    exact peek_err_clean spec st hmax st1 e2 hpk
  | ok v =>
    obtain ⟨tag_id, t, size, hl⟩ := v
    rcases hpl : read_tag_payload { st1 with pos := st1.pos + hl } st.pos tag_id t size
      with ⟨st2, rr⟩
    simp only [hpl] at h
    cases rr with
    | err e2 =>
      have h2 : ((st2, ReadOutcome.err e2) : TagIteratorState × ReadOutcome ProcessingTag)
          = (st', .err e) := h
      injection h2 with hA hB
      injection hB with hC
      subst hC
      exact read_tag_payload_err_clean _ _ _ _ _ st2 e2 hpl
    | panicked =>
      have h2 : ((st2, ReadOutcome.panicked) : TagIteratorState × ReadOutcome ProcessingTag)
          = (st', .err e) := h
      injection h2 with hA hB
      exact ReadOutcome.noConfusion hB
    | ok raw_data =>
      have h2 : make_tag st2 tag_id t size st.pos
          ({ st1 with pos := st1.pos + hl } : TagIteratorState).pos raw_data
            = (st', .err e) := h
      exact make_tag_err_clean _ _ _ _ _ _ _ st' e h2

theorem read_tag_checked_clean (spec : Spec) (st st' : TagIteratorState)
    (r : ReadOutcome ProcessingTag) (h : clean_state st)
    (he : read_tag_checked spec st = some (st', r)) :
    clean_state st' ∧ (∀ e, r = .err e → clean_err e) := by
  unfold read_tag_checked at he
  split at he
  · exact absurd he (by simp)
  · have h2 : read_tag spec st = (st', r) := Option.some.inj he
    have hpres := read_tag_preserves spec st
    rw [h2] at hpres
    refine ⟨⟨hpres.1.trans h.1, ?_⟩, ?_⟩
    · intro e hq
      rw [hpres.2] at hq
      exact h.2 e hq
    · intro e hr
      rw [hr] at h2
      exact read_tag_err_clean spec st h.1 st' e h2

theorem clean_close (st : TagIteratorState) (h : clean_state st) :
    clean_state (close_known_ended st) := by
  unfold close_known_ended
  split
  · refine ⟨h.1, ?_⟩
    intro e he
    rcases List.mem_append.mp he with h1 | h1
    · exact h.2 e h1
    · rw [List.mem_reverse] at h1
      simp only [List.mem_map] at h1
      obtain ⟨t, -, rfl⟩ := h1
      trivial
  · exact h

theorem clean_pop_go (spec : Spec) (nid : Nat) :
    ∀ n st, clean_state st → clean_state (pop_ended_unknown.go spec nid n st) := by
  intro n
  induction n with
  | zero => intro st h; exact h
  | succ n ih =>
    intro st h
    unfold pop_ended_unknown.go
    split
    · split
      · apply ih
        refine ⟨h.1, ?_⟩
        intro e he
        rcases List.mem_append.mp he with h1 | h1
        · exact h.2 e h1
        · rw [List.mem_singleton] at h1
          subst h1
          trivial
      · exact h
    · exact h

theorem clean_pop (spec : Spec) (nid : Nat) (st : TagIteratorState)
    (h : clean_state st) : clean_state (pop_ended_unknown spec nid st) :=
  clean_pop_go spec nid st.tag_stack.length st h

theorem buffer_finish_clean (tagId ts pre : Nat) (st : TagIteratorState) (position : Nat)
    (h : clean_state st) :
    PRes.clean (buffer_finish tagId ts pre st position) := by
  simp only [buffer_finish]
  split
  · split
    · refine ⟨h.1, ?_⟩
      intro e he
      rcases List.mem_append.mp he with h1 | h1
      · rcases List.mem_append.mp h1 with h2 | h2
        · exact h.2 e (List.take_subset _ _ h2)
        · rw [List.mem_singleton] at h2
          subst h2
          trivial
      · exact h.2 e (List.drop_subset _ _ (List.drop_subset _ _ (List.drop_subset _ _ h1)))
    · trivial
  · refine ⟨h.1, ?_⟩
    intro e he
    rcases List.mem_append.mp he with h1 | h1
    · exact h.2 e (List.take_subset _ _ h1)
    · exact h.2 e (List.drop_subset _ _ (List.drop_subset _ _ (List.take_subset _ _ h1)))

theorem reader_loop_clean (spec : Spec) :
    ∀ fuel mode st, clean_state st → PRes.clean (reader_loop spec fuel mode st) := by
  intro fuel
  induction fuel with
  | zero => intro mode st _; trivial
  | succ fuel ih =>
    intro mode st h
    cases mode with
    | readNext =>
      have hclose : clean_state (close_known_ended st) := clean_close st h
      simp only [reader_loop]
      split
      · refine ⟨hclose.1, ?_⟩
        intro e he
        rcases List.mem_append.mp he with h1 | h1
        · exact hclose.2 e h1
        · simp only [List.mem_map] at h1
          obtain ⟨t, -, rfl⟩ := h1
          trivial
      · trivial
      · rename_i st1 e heq
        obtain ⟨hst1, herr⟩ := read_tag_checked_clean spec _ st1 _ hclose heq
        refine ⟨hst1.1, ?_⟩
        intro x hx
        rcases List.mem_append.mp hx with h1 | h1
        · exact hst1.2 x h1
        · rw [List.mem_singleton] at h1
          subst h1
          exact herr e rfl
      · rename_i st1 next_tag heq
        obtain ⟨hst1, -⟩ := read_tag_checked_clean spec _ st1 _ hclose heq
        have h2 : ∀ (nid : Nat), clean_state (pop_ended_unknown spec nid st1) :=
          fun nid => clean_pop spec nid st1 hst1
        split
        · rename_i tag_id heq2
          split
          · apply ih
            exact ⟨(h2 _).1, (h2 _).2⟩
          · refine ⟨(h2 _).1, ?_⟩
            intro x hx
            rcases List.mem_append.mp hx with h1 | h1
            · exact (h2 _).2 x h1
            · rw [List.mem_singleton] at h1
              subst h1
              trivial
        · refine ⟨(h2 _).1, ?_⟩
          intro x hx
          rcases List.mem_append.mp hx with h1 | h1
          · exact (h2 _).2 x h1
          · rw [List.mem_singleton] at h1
            subst h1
            trivial
    | bufferGo tagId ts pre position =>
      simp only [reader_loop]
      split
      · have hr := ih .readNext st h
        split
        · trivial
        · trivial
        · rename_i st1 heq
          rw [heq] at hr
          have hr1 : clean_state st1 := hr
          split
          · refine ⟨hr1.1, ?_⟩
            intro x hx
            rcases List.mem_append.mp hx with h1 | h1
            · exact hr1.2 x h1
            · rw [List.mem_singleton] at h1
              subst h1
              trivial
          · split
            · exact buffer_finish_clean _ _ _ _ _ hr1
            · exact ih _ _ hr1
      · split
        · exact buffer_finish_clean _ _ _ _ _ h
        · exact ih _ _ h

theorem next_item_clean (spec : Spec) (fuel : Nat) (st : TagIteratorState)
    (h : clean_state st) :
    ∀ item st', next_item spec fuel st = .ok (some item, st') →
      clean_out item ∧ clean_state st' := by
  intro item st' he
  simp only [next_item] at he
  split at he
  · rename_i stp heq
    have hstp : clean_state stp := by
      by_cases hq : st.emission_queue.isEmpty = true
      · rw [if_pos hq] at heq
        have heq2 : reader_loop spec fuel ReaderMode.readNext st = PRes.ok stp := heq
        have hr := reader_loop_clean spec fuel .readNext st h
        rw [heq2] at hr
        exact hr
      · rw [if_neg hq] at heq
        have h2 := PRes.ok.inj heq
        rw [← h2]
        exact h
    split at he
    · injection he with h2
      injection h2 with h3 h4
      exact Option.noConfusion h3
    · rename_i i rest hqq
      injection he with h2
      injection h2 with h3 h4
      have hitem : item = i.map Prod.fst := (Option.some.inj h3).symm
      have hmem : i ∈ stp.emission_queue := by
        rw [hqq]
        exact List.mem_cons_self i rest
      constructor
      · rw [hitem]
        exact clean_out_map i (hstp.2 i hmem)
      · rw [← h4]
        refine ⟨hstp.1, ?_⟩
        intro x hx
        refine hstp.2 x ?_
        rw [hqq]
        exact List.mem_cons_of_mem i hx
  · exact PRes.noConfusion he
  · exact PRes.noConfusion he

theorem run_clean (spec : Spec) :
    ∀ fuel st items, clean_state st → run spec fuel st = .ok items →
      ∀ i ∈ items, clean_out i := by
  intro fuel
  induction fuel with
  | zero =>
    intro st items h he
    exact absurd he (by simp [run])
  | succ fuel ih =>
    intro st items h he
    simp only [run] at he
    split at he
    · have h1 := PRes.ok.inj he
      subst h1
      intro i hi
      exact absurd hi (List.not_mem_nil i)
    · rename_i item0 st1 heq
      obtain ⟨hcl, hst1⟩ := next_item_clean spec fuel st h item0 st1 heq
      split at he
      · rename_i items0 heq2
        have h1 := PRes.ok.inj he
        subst h1
        intro i hi
        rcases List.mem_cons.mp hi with h1 | h1
        · rw [h1]
          exact hcl
        · exact ih st1 items0 hst1 heq2 i h1
      · exact PRes.noConfusion he
      · exact PRes.noConfusion he
    · exact PRes.noConfusion he
    · exact PRes.noConfusion he

/-- C9: (a) with a maximum-tag-size cutoff configured
(`set_max_allowable_tag_size`, `Modelled from the spec:` its setter lives
only in the crate's tests), a header whose declared size is Known and
exceeds the cap makes `peek_valid_tag_header` fail with
`CorruptedFileData(InvalidTagSize{position, tag_id, size})`, leaving the
state untouched; (b) with no cutoff configured, a full run never produces an
`InvalidTagSize` error. -/
theorem max_allowable_tag_size_cutoff :
    (∀ (spec : Spec) (st : TagIteratorState) (cap raw slen : Nat),
      st.max_allowable_tag_size = some cap →
      read_vint_buffered st.bytes (st.pos + (peek_tag_id st).2) = .ok (raw, slen) →
      ¬ ((spec.getTagDataType (peek_tag_id st).1 = some .unsignedInt ∨
          spec.getTagDataType (peek_tag_id st).1 = some .integer ∨
          spec.getTagDataType (peek_tag_id st).1 = some .float) ∧ raw > 8) →
      (EBMLSize.new raw slen).is_known = true →
      (EBMLSize.new raw slen).value > cap →
      peek_valid_tag_header spec st = (st, .error (.corruptedFileData
        (.invalidTagSize st.pos (peek_tag_id st).1 (EBMLSize.new raw slen).value)))) ∧
    (∀ (spec : Spec) (fuel : Nat) (st : TagIteratorState)
        (items : List (Except TagIteratorError Tag)),
      clean_state st → run spec fuel st = .ok items → ∀ i ∈ items, clean_out i) := by
  constructor
  · intro spec st cap raw slen hcap hvint hnum hknown hover
    unfold peek_valid_tag_header
    rcases hpk : peek_tag_id st with ⟨tid, ilen⟩
    rw [hpk] at hvint hnum
    dsimp only at hvint hnum ⊢
    rw [hvint]
    dsimp only
    rw [if_neg hnum]
    rw [hcap]
    dsimp only
    rw [if_pos ⟨hknown, hover⟩]
  · exact run_clean

/-- Witness for C9: with cap 0 the cutoff rejects a 1-byte `Void` body as
`InvalidTagSize`, and a no-cutoff run over the same bytes emits only
`InvalidTagSize`-free items. -/
theorem max_allowable_tag_size_cutoff_witness :
    peek_valid_tag_header testSpec
        { TagIteratorState.new [0xec, 0x81, 0x00] [] with max_allowable_tag_size := some 0 }
      = ({ TagIteratorState.new [0xec, 0x81, 0x00] [] with max_allowable_tag_size := some 0 },
          .error (.corruptedFileData (.invalidTagSize 0 236 1))) ∧
    clean_out (.ok (.binary 236 [0])) := by
  constructor
  · exact max_allowable_tag_size_cutoff.1 testSpec
      { TagIteratorState.new [0xec, 0x81, 0x00] [] with max_allowable_tag_size := some 0 }
      0 1 1 rfl rfl (by decide) rfl (by decide)
  · exact max_allowable_tag_size_cutoff.2 testSpec 10
      (TagIteratorState.new [0xec, 0x81, 0x00] []) [.ok (.binary 236 [0])]
      ⟨rfl, fun e he => absurd he (List.not_mem_nil e)⟩ rfl
      (.ok (.binary 236 [0])) (List.mem_singleton.mpr rfl)

end Ebml
